import Mathlib

/-!
Shallow embedding of `napari/_vispy/utils/shared_resource_manager.py`
(`SharedResourceManager`): a reference-counting registry of shared
rendering resources, keyed by layer-type tags.

Python `dict`s are modelled as association lists (`List (String × α)`,
unique keys, insertion order preserved); Python `set`s / `WeakSet`s as
duplicate-free lists; consumer identities as `Nat`.  Unguarded dict
indexing that can raise `KeyError` is modelled with `Option`.
-/

namespace SRM

/-- Lookup in an association list (Python `d[k]` / `k in d` / `d.get(k)`). -/
def alookup (k : String) : List (String × α) → Option α
  | [] => none
  | (k', v) :: rest => if k' = k then some v else alookup k rest

/-- Update in an association list (Python `d[k] = v`): replaces the first
binding of `k` in place, otherwise appends a new binding at the end. -/
def aset (k : String) (v : α) : List (String × α) → List (String × α)
  | [] => [(k, v)]
  | (k', v') :: rest => if k' = k then (k, v) :: rest else (k', v') :: aset k v rest

/-- Removal from an association list (Python `d.pop(k, None)`). -/
def apop (k : String) : List (String × α) → List (String × α)
  | [] => []
  | (k', v') :: rest => if k' = k then rest else (k', v') :: apop k rest

/-- Python `set.add` on a set modelled as a duplicate-free list. -/
def set_add [DecidableEq α] (x : α) (s : List α) : List α :=
  if x ∈ s then s else s ++ [x]

/-- Python `set.discard`: remove the element if present, no error otherwise. -/
def set_discard [DecidableEq α] (x : α) (s : List α) : List α :=
  s.erase x

/-- The mutable state of `SharedResourceManager`:
`_layer_instances`, `_shared_resources`, `_resource_ref_counts`,
`_resource_dependencies`. -/
structure RMState where
  layer_instances : List (String × List Nat)
  shared_resources : List (String × String)
  resource_ref_counts : List (String × Int)
  resource_dependencies : List (String × List String)
deriving DecidableEq, Repr

/-- The freshly-initialized manager state (`__init__`). -/
def initState : RMState := ⟨[], [], [], []⟩

/-- The static `dependencies` table in `_ensure_layer_resources`. -/
def dependenciesTable : List (String × List String) :=
  [("points", ["vertex_buffers", "marker_shaders", "transform_matrices"]),
   ("labels", ["texture_units", "label_shaders", "color_maps", "transform_matrices"]),
   ("shapes", ["vertex_buffers", "geometry_shaders", "transform_matrices"]),
   ("image", ["texture_units", "image_shaders", "volume_rendering", "transform_matrices"]),
   ("surface", ["vertex_buffers", "mesh_shaders", "normal_buffers", "transform_matrices"]),
   ("tracks", ["vertex_buffers", "line_shaders", "transform_matrices"]),
   ("vectors", ["vertex_buffers", "arrow_shaders", "transform_matrices"])]

/-- Python `dependencies.get(layer_type, ['transform_matrices'])`. -/
def required_resources (layer_type : String) : List String :=
  (alookup layer_type dependenciesTable).getD ["transform_matrices"]

/-- Source `_create_shared_resource`. -/
def create_shared_resource (resource_name : String) : String :=
  "shared_" ++ resource_name ++ "_resource"

/-- One iteration of the resource loop in `_ensure_layer_resources`.
Returns `none` when the unguarded `self._resource_ref_counts[resource_name] += 1`
would raise `KeyError` (the resource exists in `_shared_resources` but has no
ref-count entry; never the case in reachable states). -/
def ensure_one_resource (layer_type resource_name : String) (s : RMState) : Option RMState :=
  let s :=
    if (alookup resource_name s.shared_resources).isNone then
      { s with
        shared_resources :=
          aset resource_name (create_shared_resource resource_name) s.shared_resources,
        resource_ref_counts := aset resource_name 0 s.resource_ref_counts }
    else s
  match alookup resource_name s.resource_ref_counts with
  | none => none
  | some n =>
    let s := { s with resource_ref_counts := aset resource_name (n + 1) s.resource_ref_counts }
    some { s with
           resource_dependencies :=
             aset resource_name
               (set_add layer_type ((alookup resource_name s.resource_dependencies).getD []))
               s.resource_dependencies }

/-- Source `_ensure_layer_resources`: the loop over `required_resources`. -/
def ensure_layer_resources (layer_type : String) (s : RMState) : Option RMState :=
  (required_resources layer_type).foldlM (fun s r => ensure_one_resource layer_type r s) s

/-- Source `register_layer`. -/
def register_layer (layer_type : String) (layer_instance : Nat) (s : RMState) :
    Option RMState :=
  let s :=
    if (alookup layer_type s.layer_instances).isNone then
      { s with layer_instances := aset layer_type [] s.layer_instances }
    else s
  let s :=
    { s with
      layer_instances :=
        aset layer_type
          (set_add layer_instance ((alookup layer_type s.layer_instances).getD []))
          s.layer_instances }
  ensure_layer_resources layer_type s

/-- The `still_needed` scan in `_cleanup_unused_resources`: true iff some
layer-instances entry is non-empty and `resource_name` is a member of
`self._resource_dependencies.get(resource_name, set())`. -/
def still_needed (resource_name : String) (s : RMState) : Bool :=
  s.layer_instances.any fun p =>
    !p.2.isEmpty &&
      ((alookup resource_name s.resource_dependencies).getD []).contains resource_name

/-- Source `_safe_cleanup_resource`: pop the resource from all three maps. -/
def safe_cleanup_resource (resource_name : String) (s : RMState) : RMState :=
  { s with
    shared_resources := apop resource_name s.shared_resources,
    resource_ref_counts := apop resource_name s.resource_ref_counts,
    resource_dependencies := apop resource_name s.resource_dependencies }

/-- The body of the `for resource_name in resources_to_check` loop in
`_cleanup_unused_resources`.  The indexing `self._resource_dependencies[resource_name]`
is modelled with a default: the loop only visits current keys of
`_resource_dependencies`, each at most once, so the key is always present there. -/
def cleanup_one_resource (removed_layer_type resource_name : String) (s : RMState) : RMState :=
  let s :=
    { s with
      resource_dependencies :=
        aset resource_name
          (set_discard removed_layer_type
            ((alookup resource_name s.resource_dependencies).getD []))
          s.resource_dependencies }
  let s :=
    match alookup resource_name s.resource_ref_counts with
    | some n => { s with resource_ref_counts := aset resource_name (n - 1) s.resource_ref_counts }
    | none => s
  if !still_needed resource_name s &&
      decide (((alookup resource_name s.resource_ref_counts).getD 0 : Int) ≤ 0) then
    safe_cleanup_resource resource_name s
  else s

/-- Source `_cleanup_unused_resources`: snapshot the resources whose dependents contain
the removed layer type, then process each in turn. -/
def cleanup_unused_resources (removed_layer_type : String) (s : RMState) : RMState :=
  let resources_to_check :=
    (s.resource_dependencies.filter fun p => removed_layer_type ∈ p.2).map Prod.fst
  resources_to_check.foldl (fun s r => cleanup_one_resource removed_layer_type r s) s

/-- Source `unregister_layer`. -/
def unregister_layer (layer_type : String) (layer_instance : Nat) (s : RMState) : RMState :=
  match alookup layer_type s.layer_instances with
  | none => s
  | some instances =>
    let instances := set_discard layer_instance instances
    let s := { s with layer_instances := aset layer_type instances s.layer_instances }
    if instances.isEmpty then cleanup_unused_resources layer_type s else s

/-- Source `get_active_layer_types`: tags whose live set is non-empty. -/
def get_active_layer_types (s : RMState) : List String :=
  (s.layer_instances.filter fun p => !p.2.isEmpty).map Prod.fst

/-- The snapshot returned by `get_resource_status`. -/
structure ResourceStatus where
  active_layer_types : List String
  shared_resources : List String
  resource_ref_counts : List (String × Int)
  resource_dependencies : List (String × List String)
deriving DecidableEq, Repr

/-- Source `get_resource_status`. -/
def get_resource_status (s : RMState) : ResourceStatus :=
  { active_layer_types := get_active_layer_types s
    shared_resources := s.shared_resources.map Prod.fst
    resource_ref_counts := s.resource_ref_counts
    resource_dependencies := s.resource_dependencies }

/-- A registration or unregistration call. -/
inductive Op where
  | register (layer_type : String) (layer_instance : Nat)
  | unregister (layer_type : String) (layer_instance : Nat)
deriving DecidableEq, Repr

/-- One call; `none` models an uncaught exception. -/
def stepOp : Op → RMState → Option RMState
  | .register t x, s => register_layer t x s
  | .unregister t x, s => some (unregister_layer t x s)

/-- Run a sequence of calls from a state. -/
def runOps (ops : List Op) (s : RMState) : Option RMState :=
  ops.foldlM (fun s op => stepOp op s) s

/-- Whether a tag currently has a non-empty live set. -/
def is_live (s : RMState) (layer_type : String) : Bool :=
  match alookup layer_type s.layer_instances with
  | some l => !l.isEmpty
  | none => false

/-- The number of tags with a non-empty live set whose static dependency set
contains the given resource category. -/
def live_dependent_count (s : RMState) (resource_name : String) : Nat :=
  s.layer_instances.countP fun p =>
    !p.2.isEmpty && decide (resource_name ∈ required_resources p.1)

/-- States reachable from the fresh manager by successful register/unregister
calls with arbitrary tags and consumers. -/
inductive Reach : RMState → Prop where
  | init : Reach initState
  | register {s s' : RMState} {t : String} {x : Nat} :
      Reach s → register_layer t x s = some s' → Reach s'
  | unregister {s : RMState} (t : String) (x : Nat) :
      Reach s → Reach (unregister_layer t x s)

/-- The closed eight-tag `LayerTypeTag` set. -/
def tags8 : List String :=
  ["points", "labels", "shapes", "image", "surface", "tracks", "vectors", "unknown"]

/-- The seven known tags with explicit dependency rows. -/
def knownTags : List String :=
  ["points", "labels", "shapes", "image", "surface", "tracks", "vectors"]

/-- The closed set of resource category names. -/
def resourceNames : List String :=
  ["vertex_buffers", "marker_shaders", "transform_matrices", "texture_units",
   "label_shaders", "color_maps", "geometry_shaders", "image_shaders",
   "volume_rendering", "mesh_shaders", "normal_buffers", "line_shaders",
   "arrow_shaders"]

/-- States reachable using only tags from the closed eight-tag set. -/
inductive Reach8 : RMState → Prop where
  | init : Reach8 initState
  | register {s s' : RMState} {t : String} {x : Nat} :
      Reach8 s → t ∈ tags8 → register_layer t x s = some s' → Reach8 s'
  | unregister {s : RMState} {t : String} (x : Nat) :
      Reach8 s → t ∈ tags8 → Reach8 (unregister_layer t x s)

/-- The simplified per-resource cleanup step of claim C5: discard the removed
tag, decrement the ref count, and destroy the resource exactly when the
decremented ref count is `≤ 0` (no `still_needed` consultation). -/
def cleanup_simple_one (removed_layer_type resource_name : String) (s : RMState) : RMState :=
  let s :=
    { s with
      resource_dependencies :=
        aset resource_name
          (set_discard removed_layer_type
            ((alookup resource_name s.resource_dependencies).getD []))
          s.resource_dependencies }
  let s :=
    match alookup resource_name s.resource_ref_counts with
    | some n => { s with resource_ref_counts := aset resource_name (n - 1) s.resource_ref_counts }
    | none => s
  if ((alookup resource_name s.resource_ref_counts).getD 0 : Int) ≤ 0 then
    safe_cleanup_resource resource_name s
  else s

/-- The simplified cleanup routine of claim C5. -/
def cleanup_simple (removed_layer_type : String) (s : RMState) : RMState :=
  let resources_to_check :=
    (s.resource_dependencies.filter fun p => removed_layer_type ∈ p.2).map Prod.fst
  resources_to_check.foldl (fun s r => cleanup_simple_one removed_layer_type r s) s

/-- Unique keys: the well-formedness every Python `dict` guarantees. -/
def nodup_keys (l : List (String × α)) : Prop :=
  (l.map Prod.fst).Nodup

/-- Structural bookkeeping invariant of reachable manager states: unique dict
keys, duplicate-free sets, the three resource maps share their key set, every
recorded ref count is at least 1 and at least the number of recorded
dependents, every recorded dependent statically requires the resource, and
every resource key is one of the closed resource category names. -/
structure CoreInv (s : RMState) : Prop where
  nkLI : nodup_keys s.layer_instances
  nkSR : nodup_keys s.shared_resources
  nkRC : nodup_keys s.resource_ref_counts
  nkRD : nodup_keys s.resource_dependencies
  ndLive : ∀ T l, alookup T s.layer_instances = some l → l.Nodup
  ndDeps : ∀ C d, alookup C s.resource_dependencies = some d → d.Nodup
  keyRC : ∀ C, (alookup C s.shared_resources).isSome ↔ (alookup C s.resource_ref_counts).isSome
  keyRD : ∀ C, (alookup C s.shared_resources).isSome ↔ (alookup C s.resource_dependencies).isSome
  refPos : ∀ C n, alookup C s.resource_ref_counts = some n → 1 ≤ n
  depsReq : ∀ C d T, alookup C s.resource_dependencies = some d → T ∈ d →
      C ∈ required_resources T
  refGe : ∀ C n d, alookup C s.resource_ref_counts = some n →
      alookup C s.resource_dependencies = some d → (d.length : Int) ≤ n
  keysBound : ∀ C, (alookup C s.resource_dependencies).isSome → C ∈ resourceNames

/-- Every recorded dependent other than `R` has a non-empty live set. -/
def dep_live_exc (R : String) (s : RMState) : Prop :=
  ∀ C d T, alookup C s.resource_dependencies = some d → T ∈ d → T ≠ R →
    is_live s T = true

/-- Every recorded dependent has a non-empty live set. -/
def dep_live_all (s : RMState) : Prop :=
  ∀ C d T, alookup C s.resource_dependencies = some d → T ∈ d → is_live s T = true

/-- Every tag with a non-empty live set is recorded as a dependent of every
resource it statically requires. -/
def live_dep (s : RMState) : Prop :=
  ∀ T, is_live s T = true → ∀ C, C ∈ required_resources T →
    ∃ d, alookup C s.resource_dependencies = some d ∧ T ∈ d

/-- The full invariant of reachable manager states. -/
structure Inv (s : RMState) : Prop where
  core : CoreInv s
  dla : dep_live_all s
  ld : live_dep s

/-- Equality invariant of single-live-consumer histories: each resource map
entry exists exactly when some live tag requires the resource, the ref count
equals the number of live tags requiring it, and the dependents set is exactly
the set of live tags requiring it. -/
structure EqInv (s : RMState) : Prop where
  rc : ∀ C, alookup C s.resource_ref_counts =
      if live_dependent_count s C = 0 then none
      else some (live_dependent_count s C : Int)
  sr : ∀ C, (alookup C s.shared_resources).isSome ↔ live_dependent_count s C ≠ 0
  rdNone : ∀ C, alookup C s.resource_dependencies = none → live_dependent_count s C = 0
  rdSome : ∀ C d, alookup C s.resource_dependencies = some d →
      live_dependent_count s C ≠ 0 ∧
      ∀ T, T ∈ d ↔ (is_live s T = true ∧ C ∈ required_resources T)

theorem alookup_aset_self (k : String) (v : α) (l : List (String × α)) :
    alookup k (aset k v l) = some v := by
  induction l with
  | nil => simp [aset, alookup]
  | cons p rest ih =>
    obtain ⟨k', v'⟩ := p
    by_cases h : k' = k
    · simp [aset, alookup, h]
    · simp [aset, alookup, h, ih]

theorem alookup_aset_ne {k k' : String} (h : k' ≠ k) (v : α) (l : List (String × α)) :
    alookup k' (aset k v l) = alookup k' l := by
  have hk : ¬k = k' := fun e => h e.symm
  induction l with
  | nil => simp [aset, alookup, hk]
  | cons p rest ih =>
    obtain ⟨k'', v''⟩ := p
    by_cases h2 : k'' = k
    · subst h2
      simp [aset, alookup, hk]
    · simp only [aset, if_neg h2, alookup]
      by_cases h3 : k'' = k'
      · simp [h3]
      · simp [h3, ih]

theorem aset_aset (k : String) (v v' : α) (l : List (String × α)) :
    aset k v' (aset k v l) = aset k v' l := by
  induction l with
  | nil => simp [aset]
  | cons p rest ih =>
    obtain ⟨k'', v''⟩ := p
    by_cases hk : k'' = k
    · simp [aset, hk]
    · simp [aset, hk, ih]

theorem aset_self {k : String} {v : α} {l : List (String × α)}
    (h : alookup k l = some v) : aset k v l = l := by
  induction l with
  | nil => simp [alookup] at h
  | cons p rest ih =>
    obtain ⟨k', v'⟩ := p
    by_cases hk : k' = k
    · simp only [alookup, if_pos hk] at h
      cases h
      simp [aset, hk]
    · simp only [alookup, if_neg hk] at h
      simp [aset, hk, ih h]

theorem alookup_apop_ne {k k' : String} (h : k' ≠ k) (l : List (String × α)) :
    alookup k' (apop k l) = alookup k' l := by
  induction l with
  | nil => simp [apop]
  | cons p rest ih =>
    obtain ⟨k'', v''⟩ := p
    by_cases h2 : k'' = k
    · subst h2
      have hk : ¬k'' = k' := fun e => h e.symm
      simp [apop, alookup, hk]
    · simp only [apop, if_neg h2, alookup]
      by_cases h3 : k'' = k'
      · simp [h3]
      · simp [h3, ih]

theorem alookup_some_key_mem {k : String} {v : α} {l : List (String × α)}
    (h : alookup k l = some v) : k ∈ l.map Prod.fst := by
  induction l with
  | nil => simp [alookup] at h
  | cons p rest ih =>
    obtain ⟨k', v'⟩ := p
    by_cases hk : k' = k
    · simp [hk]
    · simp only [alookup, if_neg hk] at h
      simpa using Or.inr (ih h)

theorem alookup_apop_self {k : String} {l : List (String × α)}
    (h : nodup_keys l) : alookup k (apop k l) = none := by
  induction l with
  | nil => simp [apop, alookup]
  | cons p rest ih =>
    obtain ⟨k', v'⟩ := p
    simp only [nodup_keys, List.map_cons, List.nodup_cons] at h
    by_cases hk : k' = k
    · subst hk
      simp only [apop, if_pos rfl]
      cases hr : alookup k' rest with
      | none => exact hr
      | some w => exact absurd (alookup_some_key_mem hr) h.1
    · simp [apop, alookup, hk, ih h.2]

theorem alookup_mem {k : String} {v : α} {l : List (String × α)}
    (h : alookup k l = some v) : (k, v) ∈ l := by
  induction l with
  | nil => simp [alookup] at h
  | cons p rest ih =>
    obtain ⟨k', v'⟩ := p
    by_cases hk : k' = k
    · simp only [alookup, if_pos hk] at h
      cases h
      simp [hk]
    · simp only [alookup, if_neg hk] at h
      exact List.mem_cons_of_mem _ (ih h)

theorem mem_alookup {k : String} {v : α} {l : List (String × α)}
    (hnd : nodup_keys l) (h : (k, v) ∈ l) : alookup k l = some v := by
  induction l with
  | nil => simp at h
  | cons p rest ih =>
    obtain ⟨k', v'⟩ := p
    simp only [nodup_keys, List.map_cons, List.nodup_cons] at hnd
    rcases List.mem_cons.mp h with h1 | h1
    · cases h1
      simp [alookup]
    · have hne : ¬k' = k := by
        intro he
        subst he
        exact hnd.1 (List.mem_map_of_mem Prod.fst h1)
      simp only [alookup, if_neg hne]
      exact ih hnd.2 h1

theorem alookup_none_nil {l : List (String × α)}
    (h : ∀ k, alookup k l = none) : l = [] := by
  cases l with
  | nil => rfl
  | cons p rest =>
    obtain ⟨k, v⟩ := p
    have := h k
    simp [alookup] at this

theorem mem_aset_cases {k : String} {v : α} {p : String × α} {l : List (String × α)}
    (h : p ∈ aset k v l) : p ∈ l ∨ p = (k, v) := by
  induction l with
  | nil => simpa [aset] using h
  | cons q rest ih =>
    obtain ⟨k', v'⟩ := q
    by_cases hk : k' = k
    · simp only [aset, if_pos hk] at h
      rcases List.mem_cons.mp h with h1 | h1
      · exact Or.inr h1
      · exact Or.inl (List.mem_cons_of_mem _ h1)
    · simp only [aset, if_neg hk] at h
      rcases List.mem_cons.mp h with h1 | h1
      · exact Or.inl (h1 ▸ List.mem_cons_self _ _)
      · rcases ih h1 with h2 | h2
        · exact Or.inl (List.mem_cons_of_mem _ h2)
        · exact Or.inr h2

theorem mem_of_mem_apop {k : String} {p : String × α} {l : List (String × α)}
    (h : p ∈ apop k l) : p ∈ l := by
  induction l with
  | nil => simp [apop] at h
  | cons q rest ih =>
    obtain ⟨k', v'⟩ := q
    by_cases hk : k' = k
    · simp only [apop, if_pos hk] at h
      exact List.mem_cons_of_mem _ h
    · simp only [apop, if_neg hk] at h
      rcases List.mem_cons.mp h with h1 | h1
      · exact h1 ▸ List.mem_cons_self _ _
      · exact List.mem_cons_of_mem _ (ih h1)

theorem nodup_keys_nil : nodup_keys ([] : List (String × α)) := by
  simp [nodup_keys]

theorem nodup_keys_aset {l : List (String × α)} (k : String) (v : α)
    (h : nodup_keys l) : nodup_keys (aset k v l) := by
  induction l with
  | nil => simp [aset, nodup_keys]
  | cons p rest ih =>
    obtain ⟨k', v'⟩ := p
    simp only [nodup_keys, List.map_cons, List.nodup_cons] at h
    by_cases hk : k' = k
    · subst hk
      simpa [aset, nodup_keys] using h
    · simp only [aset, if_neg hk, nodup_keys, List.map_cons, List.nodup_cons]
      refine ⟨fun hc => ?_, ih h.2⟩
      rcases List.mem_map.mp hc with ⟨⟨a, b⟩, hab, hfst⟩
      cases hfst
      rcases mem_aset_cases hab with h1 | h1
      · exact h.1 (List.mem_map_of_mem Prod.fst h1)
      · exact hk (congrArg Prod.fst h1)

theorem nodup_keys_apop {l : List (String × α)} (k : String)
    (h : nodup_keys l) : nodup_keys (apop k l) := by
  induction l with
  | nil => simp [apop, nodup_keys]
  | cons p rest ih =>
    obtain ⟨k', v'⟩ := p
    simp only [nodup_keys, List.map_cons, List.nodup_cons] at h
    by_cases hk : k' = k
    · simp only [apop, if_pos hk]
      exact h.2
    · simp only [apop, if_neg hk, nodup_keys, List.map_cons, List.nodup_cons]
      refine ⟨fun hc => ?_, ih h.2⟩
      rcases List.mem_map.mp hc with ⟨⟨a, b⟩, hab, hfst⟩
      cases hfst
      exact h.1 (List.mem_map_of_mem Prod.fst (mem_of_mem_apop hab))

theorem mem_set_add [DecidableEq α] {x y : α} {s : List α} :
    y ∈ set_add x s ↔ y = x ∨ y ∈ s := by
  by_cases h : x ∈ s
  · simp only [set_add, if_pos h]
    constructor
    · exact Or.inr
    · rintro (rfl | hy)
      · exact h
      · exact hy
  · simp [set_add, if_neg h, List.mem_append, or_comm]

theorem nodup_set_add [DecidableEq α] {x : α} {s : List α}
    (h : s.Nodup) : (set_add x s).Nodup := by
  by_cases hx : x ∈ s
  · simpa [set_add, if_pos hx] using h
  · simp only [set_add, if_neg hx]
    refine List.Nodup.append h (List.nodup_singleton x) ?_
    intro a ha hax
    have hax2 : a = x := by simpa using hax
    exact hx (hax2 ▸ ha)

theorem set_add_eq_self [DecidableEq α] {x : α} {s : List α} (h : x ∈ s) :
    set_add x s = s := by
  simp [set_add, if_pos h]

theorem ensure_one_absent {C : String} {s : RMState} (T : String)
    (h : alookup C s.shared_resources = none) :
    ensure_one_resource T C s = some
      { s with
        shared_resources := aset C (create_shared_resource C) s.shared_resources,
        resource_ref_counts := aset C 1 s.resource_ref_counts,
        resource_dependencies :=
          aset C (set_add T ((alookup C s.resource_dependencies).getD []))
            s.resource_dependencies } := by
  have h01 : (0 : Int) + 1 = 1 := by norm_num
  simp [ensure_one_resource, h, alookup_aset_self, aset_aset, h01]

theorem ensure_one_present {C : String} {s : RMState} (T : String) {h0 : String} {n : Int}
    (hsr : alookup C s.shared_resources = some h0)
    (hrc : alookup C s.resource_ref_counts = some n) :
    ensure_one_resource T C s = some
      { s with
        resource_ref_counts := aset C (n + 1) s.resource_ref_counts,
        resource_dependencies :=
          aset C (set_add T ((alookup C s.resource_dependencies).getD []))
            s.resource_dependencies } := by
  simp [ensure_one_resource, hsr, hrc]

theorem ensure_one_fail {C : String} {s : RMState} (T : String) {h0 : String}
    (hsr : alookup C s.shared_resources = some h0)
    (hrc : alookup C s.resource_ref_counts = none) :
    ensure_one_resource T C s = none := by
  simp [ensure_one_resource, hsr, hrc]

theorem still_needed_char {C : String} {s : RMState} {d : List String}
    (hd : alookup C s.resource_dependencies = some d) :
    still_needed C s = ((s.layer_instances.any fun p => !p.2.isEmpty) && d.contains C) := by
  cases hc : d.contains C
  · simp only [still_needed, hd, Option.getD_some, hc, Bool.and_false]
    exact List.any_eq_false.mpr fun x _ => by simp
  · simp only [still_needed, hd, Option.getD_some, hc, Bool.and_true]

theorem cleanup_one_char {R C : String} {s : RMState} {d : List String} {n : Int}
    (hd : alookup C s.resource_dependencies = some d)
    (hn : alookup C s.resource_ref_counts = some n) :
    cleanup_one_resource R C s =
      (if !still_needed C
            { s with
              resource_dependencies := aset C (d.erase R) s.resource_dependencies,
              resource_ref_counts := aset C (n - 1) s.resource_ref_counts }
          && decide ((n - 1 : Int) ≤ 0) then
        safe_cleanup_resource C
          { s with
            resource_dependencies := aset C (d.erase R) s.resource_dependencies,
            resource_ref_counts := aset C (n - 1) s.resource_ref_counts }
      else
        { s with
          resource_dependencies := aset C (d.erase R) s.resource_dependencies,
          resource_ref_counts := aset C (n - 1) s.resource_ref_counts }) := by
  simp [cleanup_one_resource, set_discard, hd, hn, alookup_aset_self]

theorem unregister_absent {T : String} {x : Nat} {s : RMState}
    (h : alookup T s.layer_instances = none) :
    unregister_layer T x s = s := by
  simp [unregister_layer, h]

theorem unregister_stay {T : String} {x : Nat} {s : RMState} {l : List Nat}
    (h : alookup T s.layer_instances = some l) (hne : ¬(l.erase x).isEmpty) :
    unregister_layer T x s =
      { s with layer_instances := aset T (l.erase x) s.layer_instances } := by
  simp [unregister_layer, h, set_discard, hne]

theorem unregister_empties {T : String} {x : Nat} {s : RMState} {l : List Nat}
    (h : alookup T s.layer_instances = some l) (he : (l.erase x).isEmpty) :
    unregister_layer T x s =
      cleanup_unused_resources T
        { s with layer_instances := aset T (l.erase x) s.layer_instances } := by
  simp [unregister_layer, h, set_discard, he]

theorem register_layer_eq (T : String) (x : Nat) (s : RMState) :
    register_layer T x s =
      ensure_layer_resources T
        { s with
          layer_instances :=
            aset T (set_add x ((alookup T s.layer_instances).getD []))
              s.layer_instances } := by
  cases h : alookup T s.layer_instances with
  | none => simp [register_layer, h, alookup_aset_self, aset_aset]
  | some l => simp [register_layer, h]

theorem cleanup_one_layer_instances (R C : String) (s : RMState) :
    (cleanup_one_resource R C s).layer_instances = s.layer_instances := by
  unfold cleanup_one_resource safe_cleanup_resource
  dsimp only
  split <;> split <;> rfl

theorem cleanup_fold_layer_instances (R : String) (todo : List String) (s : RMState) :
    (todo.foldl (fun t C => cleanup_one_resource R C t) s).layer_instances =
      s.layer_instances := by
  induction todo generalizing s with
  | nil => rfl
  | cons C rest ih =>
    rw [List.foldl_cons, ih, cleanup_one_layer_instances]

theorem cleanup_layer_instances (R : String) (s : RMState) :
    (cleanup_unused_resources R s).layer_instances = s.layer_instances := by
  unfold cleanup_unused_resources
  exact cleanup_fold_layer_instances R _ s

theorem required_resources_nodup (T : String) : (required_resources T).Nodup := by
  unfold required_resources dependenciesTable
  simp only [alookup]
  split_ifs <;> decide

theorem required_resources_sub (T : String) :
    ∀ C ∈ required_resources T, C ∈ resourceNames := by
  unfold required_resources dependenciesTable
  simp only [alookup]
  split_ifs <;> decide

theorem required_resources_default {T : String} (h : T ∉ knownTags) :
    required_resources T = ["transform_matrices"] := by
  unfold required_resources dependenciesTable
  simp only [alookup]
  split_ifs with h1 h2 h3 h4 h5 h6 h7
  · exact absurd (h1 ▸ (by decide : "points" ∈ knownTags)) h
  · exact absurd (h2 ▸ (by decide : "labels" ∈ knownTags)) h
  · exact absurd (h3 ▸ (by decide : "shapes" ∈ knownTags)) h
  · exact absurd (h4 ▸ (by decide : "image" ∈ knownTags)) h
  · exact absurd (h5 ▸ (by decide : "surface" ∈ knownTags)) h
  · exact absurd (h6 ▸ (by decide : "tracks" ∈ knownTags)) h
  · exact absurd (h7 ▸ (by decide : "vectors" ∈ knownTags)) h
  · rfl

theorem ensure_one_spec {T C : String} {s : RMState}
    (hkeyRC : ∀ C2, (alookup C2 s.shared_resources).isSome ↔
      (alookup C2 s.resource_ref_counts).isSome)
    (hkeyRD : ∀ C2, (alookup C2 s.shared_resources).isSome ↔
      (alookup C2 s.resource_dependencies).isSome) :
    ∃ s', ensure_one_resource T C s = some s' ∧
      s'.layer_instances = s.layer_instances ∧
      (∀ C2, C2 ≠ C →
        alookup C2 s'.shared_resources = alookup C2 s.shared_resources ∧
        alookup C2 s'.resource_ref_counts = alookup C2 s.resource_ref_counts ∧
        alookup C2 s'.resource_dependencies = alookup C2 s.resource_dependencies) ∧
      (alookup C s'.shared_resources).isSome ∧
      alookup C s'.resource_ref_counts =
        some (((alookup C s.resource_ref_counts).getD 0) + 1) ∧
      alookup C s'.resource_dependencies =
        some (set_add T ((alookup C s.resource_dependencies).getD [])) ∧
      (nodup_keys s.shared_resources → nodup_keys s'.shared_resources) ∧
      (nodup_keys s.resource_ref_counts → nodup_keys s'.resource_ref_counts) ∧
      (nodup_keys s.resource_dependencies → nodup_keys s'.resource_dependencies) ∧
      (∀ C2, (alookup C2 s'.shared_resources).isSome ↔
        (alookup C2 s'.resource_ref_counts).isSome) ∧
      (∀ C2, (alookup C2 s'.shared_resources).isSome ↔
        (alookup C2 s'.resource_dependencies).isSome) := by
  cases hsr : alookup C s.shared_resources with
  | none =>
    have hrc : alookup C s.resource_ref_counts = none := by
      have := (hkeyRC C).not
      simp [hsr] at this
      exact this
    refine ⟨_, ensure_one_absent T hsr, rfl, ?_, ?_, ?_, ?_, ?_, ?_, ?_, ?_, ?_⟩
    · intro C2 h2
      exact ⟨alookup_aset_ne h2 _ _, alookup_aset_ne h2 _ _, alookup_aset_ne h2 _ _⟩
    · simp [alookup_aset_self]
    · simp [alookup_aset_self, hrc]
    · simp [alookup_aset_self]
    · exact fun h => nodup_keys_aset _ _ h
    · exact fun h => nodup_keys_aset _ _ h
    · exact fun h => nodup_keys_aset _ _ h
    · intro C2
      by_cases h2 : C2 = C
      · subst h2
        simp [alookup_aset_self]
      · simp only [alookup_aset_ne h2]
        exact hkeyRC C2
    · intro C2
      by_cases h2 : C2 = C
      · subst h2
        simp [alookup_aset_self]
      · simp only [alookup_aset_ne h2]
        exact hkeyRD C2
  | some h0 =>
    have hrc : (alookup C s.resource_ref_counts).isSome := by
      rw [← hkeyRC C, hsr]
      rfl
    obtain ⟨n, hn⟩ := Option.isSome_iff_exists.mp hrc
    refine ⟨_, ensure_one_present T hsr hn, rfl, ?_, ?_, ?_, ?_, ?_, ?_, ?_, ?_, ?_⟩
    · intro C2 h2
      exact ⟨rfl, alookup_aset_ne h2 _ _, alookup_aset_ne h2 _ _⟩
    · simp [hsr]
    · simp [alookup_aset_self, hn]
    · simp [alookup_aset_self]
    · exact fun h => h
    · exact fun h => nodup_keys_aset _ _ h
    · exact fun h => nodup_keys_aset _ _ h
    · intro C2
      by_cases h2 : C2 = C
      · subst h2
        simp [alookup_aset_self, hsr]
      · simp only [alookup_aset_ne h2]
        exact hkeyRC C2
    · intro C2
      by_cases h2 : C2 = C
      · subst h2
        simp [alookup_aset_self, hsr]
      · simp only [alookup_aset_ne h2]
        exact hkeyRD C2

theorem ensure_fold_spec (T : String) (l : List String) :
    ∀ s : RMState, l.Nodup →
      (∀ C2, (alookup C2 s.shared_resources).isSome ↔
        (alookup C2 s.resource_ref_counts).isSome) →
      (∀ C2, (alookup C2 s.shared_resources).isSome ↔
        (alookup C2 s.resource_dependencies).isSome) →
      ∃ s', List.foldlM (fun t r => ensure_one_resource T r t) s l = some s' ∧
        s'.layer_instances = s.layer_instances ∧
        (∀ C, C ∉ l →
          alookup C s'.shared_resources = alookup C s.shared_resources ∧
          alookup C s'.resource_ref_counts = alookup C s.resource_ref_counts ∧
          alookup C s'.resource_dependencies = alookup C s.resource_dependencies) ∧
        (∀ C ∈ l,
          (alookup C s'.shared_resources).isSome ∧
          alookup C s'.resource_ref_counts =
            some (((alookup C s.resource_ref_counts).getD 0) + 1) ∧
          alookup C s'.resource_dependencies =
            some (set_add T ((alookup C s.resource_dependencies).getD []))) ∧
        (nodup_keys s.shared_resources → nodup_keys s'.shared_resources) ∧
        (nodup_keys s.resource_ref_counts → nodup_keys s'.resource_ref_counts) ∧
        (nodup_keys s.resource_dependencies → nodup_keys s'.resource_dependencies) ∧
        (∀ C2, (alookup C2 s'.shared_resources).isSome ↔
          (alookup C2 s'.resource_ref_counts).isSome) ∧
        (∀ C2, (alookup C2 s'.shared_resources).isSome ↔
          (alookup C2 s'.resource_dependencies).isSome) := by
  induction l with
  | nil =>
    intro s _ hkeyRC hkeyRD
    exact ⟨s, rfl, rfl, fun C _ => ⟨rfl, rfl, rfl⟩, fun C hC => absurd hC (by simp),
      id, id, id, hkeyRC, hkeyRD⟩
  | cons C rest ih =>
    intro s hnd hkeyRC hkeyRD
    have hCrest : C ∉ rest := (List.nodup_cons.mp hnd).1
    obtain ⟨s1, hs1, hLI1, hloc1, hsr1, hrc1, hrd1, hnk1, hnk2, hnk3, hkeyRC1, hkeyRD1⟩ :=
      ensure_one_spec (T := T) (C := C) (s := s) hkeyRC hkeyRD
    obtain ⟨s', hs', hLI', hloc', hpost', hnk1', hnk2', hnk3', hkeyRC', hkeyRD'⟩ :=
      ih s1 (List.nodup_cons.mp hnd).2 hkeyRC1 hkeyRD1
    refine ⟨s', ?_, hLI'.trans hLI1, ?_, ?_, ?_, ?_, ?_, hkeyRC', hkeyRD'⟩
    · rw [List.foldlM_cons, hs1]
      simpa using hs'
    · intro C2 hC2
      have h2 : C2 ≠ C := fun e => hC2 (e ▸ List.mem_cons_self _ _)
      have h3 : C2 ∉ rest := fun e => hC2 (List.mem_cons_of_mem _ e)
      obtain ⟨e1, e2, e3⟩ := hloc' C2 h3
      obtain ⟨f1, f2, f3⟩ := hloc1 C2 h2
      exact ⟨e1.trans f1, e2.trans f2, e3.trans f3⟩
    · intro C2 hC2
      rcases List.mem_cons.mp hC2 with h2 | h2
      · subst h2
        obtain ⟨e1, e2, e3⟩ := hloc' C2 hCrest
        exact ⟨e1 ▸ hsr1, e2.trans hrc1, e3.trans hrd1⟩
      · have hne : C2 ≠ C := fun e => hCrest (e ▸ h2)
        obtain ⟨f1, f2, f3⟩ := hloc1 C2 hne
        obtain ⟨g1, g2, g3⟩ := hpost' C2 h2
        exact ⟨g1, g2.trans (by rw [f2]), g3.trans (by rw [f3])⟩
    · exact fun h => hnk1' (hnk1 h)
    · exact fun h => hnk2' (hnk2 h)
    · exact fun h => hnk3' (hnk3 h)

theorem set_add_isEmpty [DecidableEq α] (x : α) (s : List α) :
    (set_add x s).isEmpty = false := by
  by_cases h : x ∈ s
  · simp only [set_add, if_pos h]
    cases s with
    | nil => simp at h
    | cons a l => rfl
  · simp only [set_add, if_neg h]
    cases s <;> rfl

theorem register_spec {s : RMState} (T : String) (x : Nat)
    (hc : CoreInv s) (hdla : dep_live_all s) (hld : live_dep s) :
    ∃ s', register_layer T x s = some s' ∧
      s'.layer_instances =
        aset T (set_add x ((alookup T s.layer_instances).getD [])) s.layer_instances ∧
      (∀ C, C ∉ required_resources T →
        alookup C s'.shared_resources = alookup C s.shared_resources ∧
        alookup C s'.resource_ref_counts = alookup C s.resource_ref_counts ∧
        alookup C s'.resource_dependencies = alookup C s.resource_dependencies) ∧
      (∀ C ∈ required_resources T,
        (alookup C s'.shared_resources).isSome ∧
        alookup C s'.resource_ref_counts =
          some (((alookup C s.resource_ref_counts).getD 0) + 1) ∧
        alookup C s'.resource_dependencies =
          some (set_add T ((alookup C s.resource_dependencies).getD []))) ∧
      CoreInv s' ∧ dep_live_all s' ∧ live_dep s' ∧ is_live s' T = true := by
  set cur := (alookup T s.layer_instances).getD [] with hcur
  set s0 : RMState :=
    { s with layer_instances := aset T (set_add x cur) s.layer_instances } with hs0
  obtain ⟨s', hrun, hLI, hloc, hpost, hnk1, hnk2, hnk3, hkeyRC, hkeyRD⟩ :=
    ensure_fold_spec T (required_resources T) s0 (required_resources_nodup T)
      hc.keyRC hc.keyRD
  simp only [show s0.shared_resources = s.shared_resources from rfl,
    show s0.resource_ref_counts = s.resource_ref_counts from rfl,
    show s0.resource_dependencies = s.resource_dependencies from rfl]
    at hloc hpost hnk1 hnk2 hnk3
  have hlive_mono : ∀ T2, is_live s T2 = true → is_live s0 T2 = true := by
    intro T2 h2
    by_cases he : T2 = T
    · subst he
      simp [is_live, hs0, alookup_aset_self, set_add_isEmpty]
    · simpa [is_live, hs0, alookup_aset_ne he] using h2
  have hliveT : is_live s0 T = true := by
    simp [is_live, hs0, alookup_aset_self, set_add_isEmpty]
  have hlive_eq : ∀ T2, is_live s' T2 = is_live s0 T2 := by
    intro T2
    simp [is_live, hLI]
  refine ⟨s', ?_, hLI, ?_, ?_, ?_, ?_, ?_, ?_⟩
  · rw [register_layer_eq]
    exact hrun
  · exact fun C hC => hloc C hC
  · exact fun C hC => hpost C hC
  · constructor
    · rw [hLI]
      exact nodup_keys_aset _ _ hc.nkLI
    · exact hnk1 hc.nkSR
    · exact hnk2 hc.nkRC
    · exact hnk3 hc.nkRD
    · intro T2 l hl
      rw [hLI] at hl
      by_cases he : T2 = T
      · subst he
        rw [alookup_aset_self] at hl
        cases hl
        cases hcl : alookup T2 s.layer_instances with
        | none => simp [hcur, hcl, nodup_set_add]
        | some c => simpa [hcur, hcl] using nodup_set_add (hc.ndLive T2 c hcl)
      · rw [alookup_aset_ne he] at hl
        exact hc.ndLive T2 l hl
    · intro C d hd
      by_cases hC : C ∈ required_resources T
      · obtain ⟨-, -, hrd⟩ := hpost C hC
        rw [hrd] at hd
        cases hd
        cases hcl : alookup C s.resource_dependencies with
        | none => simp [hcl, nodup_set_add]
        | some d0 => simpa [hcl] using nodup_set_add (hc.ndDeps C d0 hcl)
      · obtain ⟨-, -, e3⟩ := hloc C hC
        exact hc.ndDeps C d (e3 ▸ hd)
    · exact hkeyRC
    · exact hkeyRD
    · intro C n hn
      by_cases hC : C ∈ required_resources T
      · obtain ⟨-, hrc, -⟩ := hpost C hC
        rw [hrc] at hn
        cases hn
        cases hcl : alookup C s.resource_ref_counts with
        | none => simp
        | some m =>
          have := hc.refPos C m hcl
          simp [hcl]
          omega
      · obtain ⟨-, e2, -⟩ := hloc C hC
        exact hc.refPos C n (e2 ▸ hn)
    · intro C d T2 hd hT2
      by_cases hC : C ∈ required_resources T
      · obtain ⟨-, -, hrd⟩ := hpost C hC
        rw [hrd] at hd
        cases hd
        rcases mem_set_add.mp hT2 with h2 | h2
        · exact h2 ▸ hC
        · cases hcl : alookup C s.resource_dependencies with
          | none => simp [hcl] at h2
          | some d0 =>
            rw [hcl] at h2
            exact hc.depsReq C d0 T2 hcl h2
      · obtain ⟨-, -, e3⟩ := hloc C hC
        exact hc.depsReq C d T2 (e3 ▸ hd) hT2
    · intro C n d hn hd
      by_cases hC : C ∈ required_resources T
      · obtain ⟨-, hrc, hrd⟩ := hpost C hC
        rw [hrc] at hn
        rw [hrd] at hd
        cases hn
        cases hd
        cases hcl : alookup C s.resource_dependencies with
        | none =>
          have h1 : alookup C s.shared_resources = none := by
            have h3 := (hc.keyRD C).not
            simp [hcl] at h3
            exact h3
          have hrcn : alookup C s.resource_ref_counts = none := by
            have h2 := (hc.keyRC C).not
            simp [h1] at h2
            exact h2
          simp [hrcn, set_add]
        | some d0 =>
          have hrcs : (alookup C s.resource_ref_counts).isSome := by
            rw [← hc.keyRC C, hc.keyRD C, hcl]
            rfl
          obtain ⟨m, hm⟩ := Option.isSome_iff_exists.mp hrcs
          have hge := hc.refGe C m d0 hm hcl
          have hlen : (set_add T d0).length ≤ d0.length + 1 := by
            by_cases hmem : T ∈ d0
            · simp [set_add, if_pos hmem]
            · simp [set_add, if_neg hmem]
          simp only [hm, Option.getD_some]
          omega
      · obtain ⟨-, e2, e3⟩ := hloc C hC
        exact hc.refGe C n d (e2 ▸ hn) (e3 ▸ hd)
    · intro C hC
      by_cases hC2 : C ∈ required_resources T
      · exact required_resources_sub T C hC2
      · obtain ⟨-, -, e3⟩ := hloc C hC2
        exact hc.keysBound C (e3 ▸ hC)
  · intro C d T2 hd hT2
    rw [hlive_eq T2]
    by_cases hC : C ∈ required_resources T
    · obtain ⟨-, -, hrd⟩ := hpost C hC
      rw [hrd] at hd
      cases hd
      rcases mem_set_add.mp hT2 with h2 | h2
      · exact h2 ▸ hliveT
      · cases hcl : alookup C s.resource_dependencies with
        | none => simp [hcl] at h2
        | some d0 =>
          rw [hcl] at h2
          exact hlive_mono T2 (hdla C d0 T2 hcl h2)
    · obtain ⟨-, -, e3⟩ := hloc C hC
      exact hlive_mono T2 (hdla C d T2 (e3 ▸ hd) hT2)
  · intro T2 hT2 C hC
    rw [hlive_eq T2] at hT2
    by_cases he : T2 = T
    · subst he
      have hCreq := hC
      obtain ⟨-, -, hrd⟩ := hpost C hC
      exact ⟨_, hrd, mem_set_add.mpr (Or.inl rfl)⟩
    · have hT2s : is_live s T2 = true := by
        have : alookup T2 s0.layer_instances = alookup T2 s.layer_instances := by
          simp [hs0, alookup_aset_ne he]
        simpa [is_live, this] using hT2
      obtain ⟨d, hdl, hdm⟩ := hld T2 hT2s C hC
      by_cases hC2 : C ∈ required_resources T
      · obtain ⟨-, -, hrd⟩ := hpost C hC2
        refine ⟨_, hrd, mem_set_add.mpr (Or.inr ?_)⟩
        rw [hdl]
        exact hdm
      · obtain ⟨-, -, e3⟩ := hloc C hC2
        exact ⟨d, e3 ▸ hdl, hdm⟩
  · rw [hlive_eq T]
    exact hliveT

theorem cleanup_one_spec {R C : String} {s : RMState} {d : List String} {n : Int}
    (hd : alookup C s.resource_dependencies = some d)
    (hn : alookup C s.resource_ref_counts = some n)
    (hR : R ∈ d) (hcore : CoreInv s) :
    (cleanup_one_resource R C s).layer_instances = s.layer_instances ∧
    (∀ C2, C2 ≠ C →
      alookup C2 (cleanup_one_resource R C s).shared_resources =
        alookup C2 s.shared_resources ∧
      alookup C2 (cleanup_one_resource R C s).resource_ref_counts =
        alookup C2 s.resource_ref_counts ∧
      alookup C2 (cleanup_one_resource R C s).resource_dependencies =
        alookup C2 s.resource_dependencies) ∧
    ((n = 1 ∧ d = [R] ∧
        alookup C (cleanup_one_resource R C s).shared_resources = none ∧
        alookup C (cleanup_one_resource R C s).resource_ref_counts = none ∧
        alookup C (cleanup_one_resource R C s).resource_dependencies = none) ∨
      (¬n = 1 ∧
        alookup C (cleanup_one_resource R C s).shared_resources =
          alookup C s.shared_resources ∧
        alookup C (cleanup_one_resource R C s).resource_ref_counts = some (n - 1) ∧
        alookup C (cleanup_one_resource R C s).resource_dependencies =
          some (d.erase R))) ∧
    CoreInv (cleanup_one_resource R C s) := by
  have hndd := hcore.ndDeps C d hd
  have hpos := hcore.refPos C n hn
  have hge := hcore.refGe C n d hn hd
  have hsr : (alookup C s.shared_resources).isSome := by
    rw [hcore.keyRD C, hd]
    rfl
  rw [cleanup_one_char hd hn]
  set s2 : RMState :=
    { s with
      resource_dependencies := aset C (d.erase R) s.resource_dependencies,
      resource_ref_counts := aset C (n - 1) s.resource_ref_counts } with hs2
  have hd2 : alookup C s2.resource_dependencies = some (d.erase R) := by
    rw [hs2]
    exact alookup_aset_self _ _ _
  have hn2 : alookup C s2.resource_ref_counts = some (n - 1) := by
    rw [hs2]
    exact alookup_aset_self _ _ _
  have hloc2 : ∀ C2, C2 ≠ C →
      alookup C2 s2.shared_resources = alookup C2 s.shared_resources ∧
      alookup C2 s2.resource_ref_counts = alookup C2 s.resource_ref_counts ∧
      alookup C2 s2.resource_dependencies = alookup C2 s.resource_dependencies := by
    intro C2 h2
    rw [hs2]
    exact ⟨rfl, alookup_aset_ne h2 _ _, alookup_aset_ne h2 _ _⟩
  by_cases hn1 : n = 1
  · subst hn1
    have hcont : (d.erase R).contains C = false := by
      cases hcc : (d.erase R).contains C with
      | false => rfl
      | true =>
        exfalso
        have hmem : C ∈ d.erase R := by simpa using hcc
        have hne2 : d.erase R ≠ [] := fun he => by simp [he] at hmem
        have hlpos : 0 < (d.erase R).length := List.length_pos.mpr hne2
        have hlen : (d.erase R).length = d.length - 1 := List.length_erase_of_mem hR
        omega
    have hsn : still_needed C s2 = false := by
      rw [still_needed_char hd2, hcont, Bool.and_false]
    have hcond : (!still_needed C s2 && decide ((1 - 1 : Int) ≤ 0)) = true := by
      rw [hsn]
      simp
    rw [if_pos hcond]
    have hdR : d = [R] := by
      have hl1 : d.length = 1 := by
        have := List.length_pos_of_mem hR
        omega
      obtain ⟨a, ha⟩ := List.length_eq_one.mp hl1
      subst ha
      simp at hR
      rw [hR]
    have hsrnone : alookup C (safe_cleanup_resource C s2).shared_resources = none := by
      exact alookup_apop_self hcore.nkSR
    have hrcnone : alookup C (safe_cleanup_resource C s2).resource_ref_counts = none := by
      exact alookup_apop_self (nodup_keys_aset _ _ hcore.nkRC)
    have hrdnone : alookup C (safe_cleanup_resource C s2).resource_dependencies = none := by
      exact alookup_apop_self (nodup_keys_aset _ _ hcore.nkRD)
    have hlocfin : ∀ C2, C2 ≠ C →
        alookup C2 (safe_cleanup_resource C s2).shared_resources =
          alookup C2 s.shared_resources ∧
        alookup C2 (safe_cleanup_resource C s2).resource_ref_counts =
          alookup C2 s.resource_ref_counts ∧
        alookup C2 (safe_cleanup_resource C s2).resource_dependencies =
          alookup C2 s.resource_dependencies := by
      intro C2 h2
      obtain ⟨e1, e2, e3⟩ := hloc2 C2 h2
      exact ⟨(alookup_apop_ne h2 _).trans e1, (alookup_apop_ne h2 _).trans e2,
        (alookup_apop_ne h2 _).trans e3⟩
    refine ⟨rfl, hlocfin, Or.inl ⟨rfl, hdR, hsrnone, hrcnone, hrdnone⟩, ?_⟩
    constructor
    · exact hcore.nkLI
    · exact nodup_keys_apop _ hcore.nkSR
    · exact nodup_keys_apop _ (nodup_keys_aset _ _ hcore.nkRC)
    · exact nodup_keys_apop _ (nodup_keys_aset _ _ hcore.nkRD)
    · exact hcore.ndLive
    · intro C2 d2 h2
      by_cases he : C2 = C
      · rw [he, hrdnone] at h2
        cases h2
      · obtain ⟨-, -, e3⟩ := hlocfin C2 he
        exact hcore.ndDeps C2 d2 (e3 ▸ h2)
    · intro C2
      by_cases he : C2 = C
      · rw [he, hsrnone, hrcnone]
        exact Iff.rfl
      · obtain ⟨e1, e2, -⟩ := hlocfin C2 he
        rw [e1, e2]
        exact hcore.keyRC C2
    · intro C2
      by_cases he : C2 = C
      · rw [he, hsrnone, hrdnone]
        exact Iff.rfl
      · obtain ⟨e1, -, e3⟩ := hlocfin C2 he
        rw [e1, e3]
        exact hcore.keyRD C2
    · intro C2 m h2
      by_cases he : C2 = C
      · rw [he, hrcnone] at h2
        cases h2
      · obtain ⟨-, e2, -⟩ := hlocfin C2 he
        exact hcore.refPos C2 m (e2 ▸ h2)
    · intro C2 d2 T2 h2 hT2
      by_cases he : C2 = C
      · rw [he, hrdnone] at h2
        cases h2
      · obtain ⟨-, -, e3⟩ := hlocfin C2 he
        exact hcore.depsReq C2 d2 T2 (e3 ▸ h2) hT2
    · intro C2 m d2 h2 h3
      by_cases he : C2 = C
      · rw [he, hrcnone] at h2
        cases h2
      · obtain ⟨-, e2, e3⟩ := hlocfin C2 he
        exact hcore.refGe C2 m d2 (e2 ▸ h2) (e3 ▸ h3)
    · intro C2 h2
      by_cases he : C2 = C
      · rw [he, hrdnone] at h2
        cases h2
      · obtain ⟨-, -, e3⟩ := hlocfin C2 he
        exact hcore.keysBound C2 (e3 ▸ h2)
  · have hge2 : (2 : Int) ≤ n := by omega
    have hcond : (!still_needed C s2 && decide ((n - 1 : Int) ≤ 0)) = false := by
      have h2 : ¬((n - 1 : Int) ≤ 0) := by omega
      simp [h2]
    have ht1 : (if !still_needed C s2 && decide ((n - 1 : Int) ≤ 0) then
        safe_cleanup_resource C s2 else s2) = s2 := by
      rw [hcond]
      rfl
    rw [ht1]
    refine ⟨rfl, hloc2, Or.inr ⟨hn1, rfl, hn2, hd2⟩, ?_⟩
    constructor
    · exact hcore.nkLI
    · exact hcore.nkSR
    · exact nodup_keys_aset _ _ hcore.nkRC
    · exact nodup_keys_aset _ _ hcore.nkRD
    · exact hcore.ndLive
    · intro C2 d2 h2
      by_cases he : C2 = C
      · rw [he, hd2] at h2
        cases h2
        exact hndd.erase R
      · obtain ⟨-, -, e3⟩ := hloc2 C2 he
        exact hcore.ndDeps C2 d2 (e3 ▸ h2)
    · intro C2
      by_cases he : C2 = C
      · subst he
        rw [hn2]
        simp only [Option.isSome_some, iff_true]
        exact hsr
      · obtain ⟨e1, e2, -⟩ := hloc2 C2 he
        rw [e1, e2]
        exact hcore.keyRC C2
    · intro C2
      by_cases he : C2 = C
      · subst he
        rw [hd2]
        simp only [Option.isSome_some, iff_true]
        exact hsr
      · obtain ⟨e1, -, e3⟩ := hloc2 C2 he
        rw [e1, e3]
        exact hcore.keyRD C2
    · intro C2 m h2
      by_cases he : C2 = C
      · rw [he, hn2] at h2
        cases h2
        omega
      · obtain ⟨-, e2, -⟩ := hloc2 C2 he
        exact hcore.refPos C2 m (e2 ▸ h2)
    · intro C2 d2 T2 h2 hT2
      by_cases he : C2 = C
      · rw [he] at h2 ⊢
        rw [hd2] at h2
        cases h2
        exact hcore.depsReq C d T2 hd (List.erase_subset _ _ hT2)
      · obtain ⟨-, -, e3⟩ := hloc2 C2 he
        exact hcore.depsReq C2 d2 T2 (e3 ▸ h2) hT2
    · intro C2 m d2 h2 h3
      by_cases he : C2 = C
      · rw [he, hn2] at h2
        rw [he, hd2] at h3
        cases h2
        cases h3
        have hlen : (d.erase R).length = d.length - 1 := List.length_erase_of_mem hR
        have hdl : 0 < d.length := List.length_pos_of_mem hR
        omega
      · obtain ⟨-, e2, e3⟩ := hloc2 C2 he
        exact hcore.refGe C2 m d2 (e2 ▸ h2) (e3 ▸ h3)
    · intro C2 h2
      by_cases he : C2 = C
      · rw [he]
        have h3 : (alookup C s.resource_dependencies).isSome := by
          rw [hd]
          rfl
        exact hcore.keysBound C h3
      · obtain ⟨-, -, e3⟩ := hloc2 C2 he
        exact hcore.keysBound C2 (e3 ▸ h2)

theorem cleanup_fold_spec (R : String) (todo : List String) :
    ∀ s : RMState, todo.Nodup →
      (∀ C ∈ todo, ∃ d, alookup C s.resource_dependencies = some d ∧ R ∈ d) →
      (∀ C d, alookup C s.resource_dependencies = some d → R ∈ d → C ∈ todo) →
      CoreInv s → dep_live_exc R s → live_dep s → is_live s R = false →
      (todo.foldl (fun t C => cleanup_one_resource R C t) s).layer_instances =
          s.layer_instances ∧
      CoreInv (todo.foldl (fun t C => cleanup_one_resource R C t) s) ∧
      dep_live_all (todo.foldl (fun t C => cleanup_one_resource R C t) s) ∧
      live_dep (todo.foldl (fun t C => cleanup_one_resource R C t) s) ∧
      (∀ C d, alookup C
          (todo.foldl (fun t C => cleanup_one_resource R C t) s).resource_dependencies =
          some d → R ∉ d) ∧
      (∀ C, C ∉ todo →
        alookup C (todo.foldl (fun t C => cleanup_one_resource R C t) s).shared_resources =
          alookup C s.shared_resources ∧
        alookup C (todo.foldl (fun t C => cleanup_one_resource R C t) s).resource_ref_counts =
          alookup C s.resource_ref_counts ∧
        alookup C
            (todo.foldl (fun t C => cleanup_one_resource R C t) s).resource_dependencies =
          alookup C s.resource_dependencies) ∧
      (∀ C ∈ todo, ∃ d n, alookup C s.resource_dependencies = some d ∧
        alookup C s.resource_ref_counts = some n ∧ R ∈ d ∧
        ((n = 1 ∧ d = [R] ∧
            alookup C (todo.foldl (fun t C => cleanup_one_resource R C t) s).shared_resources
              = none ∧
            alookup C
                (todo.foldl (fun t C => cleanup_one_resource R C t) s).resource_ref_counts
              = none ∧
            alookup C
                (todo.foldl (fun t C => cleanup_one_resource R C t) s).resource_dependencies
              = none) ∨
          (¬n = 1 ∧
            alookup C (todo.foldl (fun t C => cleanup_one_resource R C t) s).shared_resources
              = alookup C s.shared_resources ∧
            alookup C
                (todo.foldl (fun t C => cleanup_one_resource R C t) s).resource_ref_counts
              = some (n - 1) ∧
            alookup C
                (todo.foldl (fun t C => cleanup_one_resource R C t) s).resource_dependencies
              = some (d.erase R)))) := by
  induction todo with
  | nil =>
    intro s _ hmem hcov hcore hexc hld hdead
    refine ⟨rfl, hcore, ?_, hld, ?_, fun C _ => ⟨rfl, rfl, rfl⟩,
      fun C hC => absurd hC (List.not_mem_nil C)⟩
    · intro C d T hd hT
      by_cases hTR : T = R
      · subst hTR
        exact absurd (hcov C d hd hT) (List.not_mem_nil C)
      · exact hexc C d T hd hT hTR
    · intro C d hd hR2
      exact absurd (hcov C d hd hR2) (List.not_mem_nil C)
  | cons C rest ih =>
    intro s hnd hmem hcov hcore hexc hld hdead
    have hCrest : C ∉ rest := (List.nodup_cons.mp hnd).1
    obtain ⟨d, hd, hRd⟩ := hmem C (List.mem_cons_self C rest)
    have hrcs : (alookup C s.resource_ref_counts).isSome := by
      rw [← hcore.keyRC C, hcore.keyRD C, hd]
      rfl
    obtain ⟨n, hn⟩ := Option.isSome_iff_exists.mp hrcs
    obtain ⟨hLI1, hloc1, hcases, hcore1⟩ := cleanup_one_spec hd hn hRd hcore
    have hndd := hcore.ndDeps C d hd
    have hlive1 : ∀ T2, is_live (cleanup_one_resource R C s) T2 = is_live s T2 := by
      intro T2
      simp [is_live, hLI1]
    have hmem1 : ∀ C2 ∈ rest, ∃ d2,
        alookup C2 (cleanup_one_resource R C s).resource_dependencies = some d2 ∧
        R ∈ d2 := by
      intro C2 h2
      have hne : C2 ≠ C := fun e => hCrest (e ▸ h2)
      obtain ⟨d2, hd2, hR2⟩ := hmem C2 (List.mem_cons_of_mem C h2)
      obtain ⟨-, -, e3⟩ := hloc1 C2 hne
      exact ⟨d2, e3.trans hd2, hR2⟩
    have hcov1 : ∀ C2 d2,
        alookup C2 (cleanup_one_resource R C s).resource_dependencies = some d2 →
        R ∈ d2 → C2 ∈ rest := by
      intro C2 d2 h2 hR2
      by_cases hne : C2 = C
      · subst hne
        rcases hcases with ⟨-, -, -, -, hrdn⟩ | ⟨-, -, -, hrde⟩
        · rw [hrdn] at h2
          cases h2
        · rw [hrde] at h2
          cases h2
          exact absurd hR2 (fun hmem2 => ((hndd.mem_erase_iff).mp hmem2).1 rfl)
      · obtain ⟨-, -, e3⟩ := hloc1 C2 hne
        have := hcov C2 d2 (e3 ▸ h2) hR2
        rcases List.mem_cons.mp this with h3 | h3
        · exact absurd h3 hne
        · exact h3
    have hexc1 : dep_live_exc R (cleanup_one_resource R C s) := by
      intro C2 d2 T2 h2 hT2 hTR
      rw [hlive1]
      by_cases hne : C2 = C
      · rw [hne] at h2
        rcases hcases with ⟨-, -, -, -, hrdn⟩ | ⟨-, -, -, hrde⟩
        · rw [hrdn] at h2
          cases h2
        · rw [hrde] at h2
          cases h2
          exact hexc C d T2 hd (List.erase_subset _ _ hT2) hTR
      · obtain ⟨-, -, e3⟩ := hloc1 C2 hne
        exact hexc C2 d2 T2 (e3 ▸ h2) hT2 hTR
    have hld1 : live_dep (cleanup_one_resource R C s) := by
      intro T2 hT2 C2 hC2
      rw [hlive1] at hT2
      have hT2R : T2 ≠ R := fun e => by
        rw [e] at hT2
        rw [hT2] at hdead
        cases hdead
      obtain ⟨d2, hd2, hm2⟩ := hld T2 hT2 C2 hC2
      by_cases hne : C2 = C
      · rw [hne] at hd2 ⊢
        rw [hd] at hd2
        cases hd2
        rcases hcases with ⟨-, hdR, -, -, -⟩ | ⟨-, -, -, hrde⟩
        · rw [hdR] at hm2
          simp at hm2
          exact absurd hm2 hT2R
        · exact ⟨d.erase R, hrde, (List.mem_erase_of_ne hT2R).mpr hm2⟩
      · obtain ⟨-, -, e3⟩ := hloc1 C2 hne
        exact ⟨d2, e3 ▸ hd2, hm2⟩
    have hdead1 : is_live (cleanup_one_resource R C s) R = false := by
      rw [hlive1]
      exact hdead
    obtain ⟨iLI, iCore, iDla, iLd, iRout, iLoc, iExact⟩ :=
      ih (cleanup_one_resource R C s) (List.nodup_cons.mp hnd).2 hmem1 hcov1 hcore1
        hexc1 hld1 hdead1
    rw [List.foldl_cons]
    refine ⟨iLI.trans hLI1, iCore, iDla, iLd, iRout, ?_, ?_⟩
    · intro C2 hC2
      have hne : C2 ≠ C := fun e => hC2 (e ▸ List.mem_cons_self C rest)
      have hnr : C2 ∉ rest := fun e => hC2 (List.mem_cons_of_mem C e)
      obtain ⟨e1, e2, e3⟩ := iLoc C2 hnr
      obtain ⟨f1, f2, f3⟩ := hloc1 C2 hne
      exact ⟨e1.trans f1, e2.trans f2, e3.trans f3⟩
    · intro C2 hC2
      rcases List.mem_cons.mp hC2 with h2 | h2
      · subst h2
        obtain ⟨e1, e2, e3⟩ := iLoc C2 hCrest
        refine ⟨d, n, hd, hn, hRd, ?_⟩
        rcases hcases with ⟨hn1, hdR, g1, g2, g3⟩ | ⟨hn1, g1, g2, g3⟩
        · exact Or.inl ⟨hn1, hdR, e1.trans g1, e2.trans g2, e3.trans g3⟩
        · exact Or.inr ⟨hn1, e1.trans g1, e2.trans g2, e3.trans g3⟩
      · have hne : C2 ≠ C := fun e => hCrest (e ▸ h2)
        obtain ⟨f1, f2, f3⟩ := hloc1 C2 hne
        obtain ⟨d2, n2, hd2, hn2, hR2, hcc⟩ := iExact C2 h2
        refine ⟨d2, n2, f3 ▸ hd2, f2 ▸ hn2, hR2, ?_⟩
        rcases hcc with ⟨hn1, hdR, g1, g2, g3⟩ | ⟨hn1, g1, g2, g3⟩
        · exact Or.inl ⟨hn1, hdR, g1, g2, g3⟩
        · exact Or.inr ⟨hn1, g1.trans f1, g2, g3⟩

theorem resources_to_check_nodup {R : String} {s : RMState} (h : nodup_keys s.resource_dependencies) :
    ((s.resource_dependencies.filter fun p => R ∈ p.2).map Prod.fst).Nodup := by
  have hsub : ((s.resource_dependencies.filter fun p => R ∈ p.2).map Prod.fst).Sublist
      (s.resource_dependencies.map Prod.fst) :=
    (List.filter_sublist _).map Prod.fst
  exact hsub.nodup h

theorem resources_to_check_mem {R : String} {s : RMState}
    (hnd : nodup_keys s.resource_dependencies) :
    ∀ C ∈ (s.resource_dependencies.filter fun p => R ∈ p.2).map Prod.fst,
      ∃ d, alookup C s.resource_dependencies = some d ∧ R ∈ d := by
  intro C hC
  obtain ⟨⟨C1, d⟩, hmem, hfst⟩ := List.mem_map.mp hC
  cases hfst
  have h2 := List.mem_filter.mp hmem
  refine ⟨d, mem_alookup hnd h2.1, ?_⟩
  simpa using h2.2

theorem resources_to_check_cov {R : String} {s : RMState} :
    ∀ C d, alookup C s.resource_dependencies = some d → R ∈ d →
      C ∈ (s.resource_dependencies.filter fun p => R ∈ p.2).map Prod.fst := by
  intro C d hd hR
  refine List.mem_map.mpr ⟨(C, d), List.mem_filter.mpr ⟨alookup_mem hd, ?_⟩, rfl⟩
  simpa using hR

theorem unregister_spec {s : RMState} (T : String) (x : Nat) (hInv : Inv s) :
    Inv (unregister_layer T x s) := by
  cases hli : alookup T s.layer_instances with
  | none =>
    rw [unregister_absent hli]
    exact hInv
  | some l =>
    have hlnd := hInv.core.ndLive T l hli
    by_cases he : (l.erase x).isEmpty
    · rw [unregister_empties hli he]
      set smid : RMState :=
        { s with layer_instances := aset T (l.erase x) s.layer_instances } with hsmid
      have hlivemid : ∀ T2, T2 ≠ T → is_live smid T2 = is_live s T2 := by
        intro T2 h2
        simp [is_live, hsmid, alookup_aset_ne h2]
      have hdeadmid : is_live smid T = false := by
        simp only [is_live, hsmid, alookup_aset_self]
        rw [List.isEmpty_iff] at he
        rw [he]
        rfl
      have hcoremid : CoreInv smid := by
        obtain ⟨c1, c2, c3, c4, c5, c6, c7, c8, c9, c10, c11, c12⟩ := hInv.core
        exact ⟨nodup_keys_aset _ _ c1, c2, c3, c4, by
          intro T2 l2 h2
          by_cases h3 : T2 = T
          · rw [h3, alookup_aset_self] at h2
            cases h2
            exact hlnd.erase x
          · rw [alookup_aset_ne h3] at h2
            exact c5 T2 l2 h2, c6, c7, c8, c9, c10, c11, c12⟩
      have hexcmid : dep_live_exc T smid := by
        intro C d T2 hd hT2 hT2T
        rw [hlivemid T2 hT2T]
        exact hInv.dla C d T2 hd hT2
      have hldmid : live_dep smid := by
        intro T2 hT2 C hC
        by_cases h3 : T2 = T
        · rw [h3] at hT2
          rw [hT2] at hdeadmid
          cases hdeadmid
        · rw [hlivemid T2 h3] at hT2
          exact hInv.ld T2 hT2 C hC
      obtain ⟨-, hcore, hdla, hld, -, -, -⟩ :=
        cleanup_fold_spec T _ smid (resources_to_check_nodup hcoremid.nkRD)
          (resources_to_check_mem hcoremid.nkRD) resources_to_check_cov hcoremid
          hexcmid hldmid hdeadmid
      exact ⟨hcore, hdla, hld⟩
    · rw [unregister_stay hli he]
      have hlive2 : ∀ T2, is_live
          { s with layer_instances := aset T (l.erase x) s.layer_instances } T2 = true →
          is_live s T2 = true := by
        intro T2 h2
        by_cases h3 : T2 = T
        · subst h3
          simp only [is_live, hli]
          simp only [is_live, alookup_aset_self] at h2
          cases hl0 : l with
          | nil =>
            rw [hl0] at h2
            simp [List.erase_nil] at h2
          | cons a as => rfl
        · simpa [is_live, alookup_aset_ne h3] using h2
      have hlive2r : ∀ T2, is_live s T2 = true → is_live
          { s with layer_instances := aset T (l.erase x) s.layer_instances } T2 = true := by
        intro T2 h2
        by_cases h3 : T2 = T
        · subst h3
          simp only [is_live, alookup_aset_self]
          simpa using he
        · simpa [is_live, alookup_aset_ne h3] using h2
      obtain ⟨c1, c2, c3, c4, c5, c6, c7, c8, c9, c10, c11, c12⟩ := hInv.core
      refine ⟨⟨nodup_keys_aset _ _ c1, c2, c3, c4, ?_, c6, c7, c8, c9, c10, c11, c12⟩,
        ?_, ?_⟩
      · intro T2 l2 h2
        by_cases h3 : T2 = T
        · rw [h3, alookup_aset_self] at h2
          cases h2
          exact hlnd.erase x
        · rw [alookup_aset_ne h3] at h2
          exact c5 T2 l2 h2
      · intro C d T2 hd hT2
        exact hlive2r T2 (hInv.dla C d T2 hd hT2)
      · intro T2 hT2 C hC
        exact hInv.ld T2 (hlive2 T2 hT2) C hC

theorem inv_init : Inv initState := by
  refine ⟨⟨?_, ?_, ?_, ?_, ?_, ?_, ?_, ?_, ?_, ?_, ?_, ?_⟩, ?_, ?_⟩ <;>
    simp [initState, nodup_keys, alookup, is_live, dep_live_all, live_dep]

theorem reach_inv {s : RMState} (h : Reach s) : Inv s := by
  induction h with
  | init => exact inv_init
  | register hr hreg ih =>
    rename_i s1 s2 t x
    obtain ⟨s3, hrun, -, -, -, hcore, hdla, hld, -⟩ := register_spec t x ih.core ih.dla ih.ld
    rw [hreg] at hrun
    cases hrun
    exact ⟨hcore, hdla, hld⟩
  | unregister t x hr ih => exact unregister_spec t x ih

theorem reach8_reach {s : RMState} (h : Reach8 s) : Reach s := by
  induction h with
  | init => exact Reach.init
  | register hr ht hreg ih => exact Reach.register ih hreg
  | unregister x hr ht ih => exact Reach.unregister _ x ih

theorem unregister_empties_spec {s : RMState} {R : String} {x : Nat} {l : List Nat}
    (hInv : Inv s) (hli : alookup R s.layer_instances = some l)
    (he : (l.erase x).isEmpty) :
    (unregister_layer R x s).layer_instances = aset R (l.erase x) s.layer_instances ∧
    Inv (unregister_layer R x s) ∧
    (∀ C d, alookup C (unregister_layer R x s).resource_dependencies = some d → R ∉ d) ∧
    (∀ C h0, alookup C (unregister_layer R x s).shared_resources = none →
      alookup C s.shared_resources = some h0 →
      alookup C s.resource_ref_counts = some 1 ∧
      alookup C s.resource_dependencies = some [R]) ∧
    (∀ C d2, alookup C (unregister_layer R x s).resource_dependencies = some d2 →
      ∃ d, alookup C s.resource_dependencies = some d ∧ d2 ⊆ d) ∧
    (∀ C, C ∉ (s.resource_dependencies.filter fun p => R ∈ p.2).map Prod.fst →
      alookup C (unregister_layer R x s).shared_resources =
        alookup C s.shared_resources ∧
      alookup C (unregister_layer R x s).resource_ref_counts =
        alookup C s.resource_ref_counts ∧
      alookup C (unregister_layer R x s).resource_dependencies =
        alookup C s.resource_dependencies) ∧
    (∀ C ∈ (s.resource_dependencies.filter fun p => R ∈ p.2).map Prod.fst,
      ∃ d n, alookup C s.resource_dependencies = some d ∧
        alookup C s.resource_ref_counts = some n ∧ R ∈ d ∧
        ((n = 1 ∧ d = [R] ∧
            alookup C (unregister_layer R x s).shared_resources = none ∧
            alookup C (unregister_layer R x s).resource_ref_counts = none ∧
            alookup C (unregister_layer R x s).resource_dependencies = none) ∨
          (¬n = 1 ∧
            alookup C (unregister_layer R x s).shared_resources =
              alookup C s.shared_resources ∧
            alookup C (unregister_layer R x s).resource_ref_counts = some (n - 1) ∧
            alookup C (unregister_layer R x s).resource_dependencies =
              some (d.erase R)))) := by
  have hlnd := hInv.core.ndLive R l hli
  rw [unregister_empties hli he]
  set smid : RMState :=
    { s with layer_instances := aset R (l.erase x) s.layer_instances } with hsmid
  have hlivemid : ∀ T2, T2 ≠ R → is_live smid T2 = is_live s T2 := by
    intro T2 h2
    simp [is_live, hsmid, alookup_aset_ne h2]
  have hdeadmid : is_live smid R = false := by
    simp only [is_live, hsmid, alookup_aset_self]
    rw [List.isEmpty_iff] at he
    rw [he]
    rfl
  have hcoremid : CoreInv smid := by
    obtain ⟨c1, c2, c3, c4, c5, c6, c7, c8, c9, c10, c11, c12⟩ := hInv.core
    exact ⟨nodup_keys_aset _ _ c1, c2, c3, c4, by
      intro T2 l2 h2
      by_cases h3 : T2 = R
      · rw [h3, alookup_aset_self] at h2
        cases h2
        exact hlnd.erase x
      · rw [alookup_aset_ne h3] at h2
        exact c5 T2 l2 h2, c6, c7, c8, c9, c10, c11, c12⟩
  have hexcmid : dep_live_exc R smid := by
    intro C d T2 hd hT2 hT2T
    rw [hlivemid T2 hT2T]
    exact hInv.dla C d T2 hd hT2
  have hldmid : live_dep smid := by
    intro T2 hT2 C hC
    by_cases h3 : T2 = R
    · rw [h3] at hT2
      rw [hT2] at hdeadmid
      cases hdeadmid
    · rw [hlivemid T2 h3] at hT2
      exact hInv.ld T2 hT2 C hC
  obtain ⟨fLI, fCore, fDla, fLd, fRout, fLoc, fExact⟩ :=
    cleanup_fold_spec R _ smid (resources_to_check_nodup hcoremid.nkRD)
      (resources_to_check_mem hcoremid.nkRD) resources_to_check_cov hcoremid
      hexcmid hldmid hdeadmid
  have hcueq : cleanup_unused_resources R smid =
      ((smid.resource_dependencies.filter fun p => R ∈ p.2).map Prod.fst).foldl
        (fun t C => cleanup_one_resource R C t) smid := rfl
  rw [hcueq]
  refine ⟨by rw [fLI], ⟨fCore, fDla, fLd⟩, fRout, ?_, ?_, fLoc, fExact⟩
  · intro C h0 hnone hsome
    by_cases hC : C ∈ (smid.resource_dependencies.filter fun p => R ∈ p.2).map Prod.fst
    · obtain ⟨d, n, hd, hn, hRd, hcc⟩ := fExact C hC
      rcases hcc with ⟨hn1, hdR, -, -, -⟩ | ⟨-, g1, -, -⟩
      · rw [hn1] at hn
        rw [hdR] at hd
        exact ⟨hn, hd⟩
      · rw [hnone] at g1
        rw [hsome] at g1
        cases g1
    · obtain ⟨e1, -, -⟩ := fLoc C hC
      rw [hnone] at e1
      rw [hsome] at e1
      cases e1
  · intro C d2 h2
    by_cases hC : C ∈ (smid.resource_dependencies.filter fun p => R ∈ p.2).map Prod.fst
    · obtain ⟨d, n, hd, hn, hRd, hcc⟩ := fExact C hC
      rcases hcc with ⟨-, -, -, -, g3⟩ | ⟨-, -, -, g3⟩
      · rw [g3] at h2
        cases h2
      · rw [g3] at h2
        cases h2
        exact ⟨d, hd, List.erase_subset _ _⟩
    · obtain ⟨-, -, e3⟩ := fLoc C hC
      exact ⟨d2, e3 ▸ h2, fun a ha => ha⟩

theorem names_tags_disjoint : ∀ C ∈ resourceNames, C ∉ tags8 := by decide

theorem contains_eq_false_of_not_mem {C : String} {d : List String} (h : C ∉ d) :
    d.contains C = false := by
  cases hc : d.contains C with
  | false => rfl
  | true => exact absurd (by simpa using hc) h

theorem cleanup_one_eq_simple (R C : String) (t : RMState)
    (hC : ∀ d2, alookup C t.resource_dependencies = some d2 → C ∉ d2) :
    cleanup_one_resource R C t = cleanup_simple_one R C t := by
  have hCd : C ∉ set_discard R ((alookup C t.resource_dependencies).getD []) := by
    intro hmem
    have hsub : C ∈ (alookup C t.resource_dependencies).getD [] :=
      List.erase_subset _ _ hmem
    cases hl : alookup C t.resource_dependencies with
    | none =>
      rw [hl] at hsub
      simp at hsub
    | some d2 =>
      rw [hl] at hsub
      exact hC d2 hl hsub
  unfold cleanup_one_resource cleanup_simple_one
  dsimp only
  cases hm : alookup C t.resource_ref_counts with
  | some n =>
    refine if_congr ?_ rfl rfl
    have hsn : still_needed C
        { t with
          resource_dependencies :=
            aset C (set_discard R ((alookup C t.resource_dependencies).getD []))
              t.resource_dependencies,
          resource_ref_counts := aset C (n - 1) t.resource_ref_counts } = false := by
      rw [still_needed_char (alookup_aset_self _ _ _), contains_eq_false_of_not_mem hCd,
        Bool.and_false]
    rw [hsn]
    simp
  | none =>
    refine if_congr ?_ rfl rfl
    have hsn : still_needed C
        { t with
          resource_dependencies :=
            aset C (set_discard R ((alookup C t.resource_dependencies).getD []))
              t.resource_dependencies } = false := by
      rw [still_needed_char (alookup_aset_self _ _ _), contains_eq_false_of_not_mem hCd,
        Bool.and_false]
    rw [hsn]
    simp

theorem cleanup_simple_one_mono (R C : String) (t : RMState)
    (hnd : nodup_keys t.resource_dependencies) :
    nodup_keys (cleanup_simple_one R C t).resource_dependencies ∧
    (∀ C2 d2 T2,
      alookup C2 (cleanup_simple_one R C t).resource_dependencies = some d2 →
      T2 ∈ d2 → ∃ d, alookup C2 t.resource_dependencies = some d ∧ T2 ∈ d) := by
  have hmono : ∀ C2 d2 T2,
      alookup C2 (aset C (set_discard R ((alookup C t.resource_dependencies).getD []))
        t.resource_dependencies) = some d2 →
      T2 ∈ d2 → ∃ d, alookup C2 t.resource_dependencies = some d ∧ T2 ∈ d := by
    intro C2 d2 T2 h2 hT2
    by_cases he : C2 = C
    · rw [he, alookup_aset_self] at h2
      cases h2
      have hsub : T2 ∈ (alookup C t.resource_dependencies).getD [] :=
        List.erase_subset _ _ hT2
      cases hl : alookup C t.resource_dependencies with
      | none =>
        rw [hl] at hsub
        simp at hsub
      | some d =>
        rw [hl] at hsub
        exact ⟨d, by rw [he]; exact hl, hsub⟩
    · rw [alookup_aset_ne he] at h2
      exact ⟨d2, h2, hT2⟩
  have hnd2 : nodup_keys (aset C (set_discard R ((alookup C t.resource_dependencies).getD []))
      t.resource_dependencies) := nodup_keys_aset _ _ hnd
  unfold cleanup_simple_one safe_cleanup_resource
  dsimp only
  cases hm : alookup C t.resource_ref_counts with
  | some n =>
    split
    · refine ⟨nodup_keys_apop _ hnd2, ?_⟩
      intro C2 d2 T2 h2 hT2
      by_cases he : C2 = C
      · rw [he, alookup_apop_self hnd2] at h2
        cases h2
      · rw [alookup_apop_ne he] at h2
        exact hmono C2 d2 T2 h2 hT2
    · exact ⟨hnd2, hmono⟩
  | none =>
    split
    · refine ⟨nodup_keys_apop _ hnd2, ?_⟩
      intro C2 d2 T2 h2 hT2
      by_cases he : C2 = C
      · rw [he, alookup_apop_self hnd2] at h2
        cases h2
      · rw [alookup_apop_ne he] at h2
        exact hmono C2 d2 T2 h2 hT2
    · exact ⟨hnd2, hmono⟩

theorem cleanup_fold_eq_simple (R : String) (todo : List String) :
    ∀ t : RMState, (∀ C ∈ todo, C ∈ resourceNames) →
      (∀ C d, alookup C t.resource_dependencies = some d → ∀ T ∈ d, T ∈ tags8) →
      nodup_keys t.resource_dependencies →
      todo.foldl (fun t C => cleanup_one_resource R C t) t =
        todo.foldl (fun t C => cleanup_simple_one R C t) t := by
  induction todo with
  | nil => intros; rfl
  | cons C rest ih =>
    intro t htodo hbound hnd
    have hCn : C ∈ resourceNames := htodo C (List.mem_cons_self C rest)
    have heq : cleanup_one_resource R C t = cleanup_simple_one R C t := by
      refine cleanup_one_eq_simple R C t ?_
      intro d2 hd2 hmem
      exact names_tags_disjoint C hCn (hbound C d2 hd2 C hmem)
    obtain ⟨hnd2, hmono⟩ := cleanup_simple_one_mono R C t hnd
    rw [List.foldl_cons, List.foldl_cons, heq]
    refine ih (cleanup_simple_one R C t)
      (fun C2 h2 => htodo C2 (List.mem_cons_of_mem C h2)) ?_ hnd2
    intro C2 d2 hd2 T2 hT2
    obtain ⟨d, hd, hm⟩ := hmono C2 d2 T2 hd2 hT2
    exact hbound C2 d hd T2 hm

theorem reach8_tags_bound {s : RMState} (h : Reach8 s) :
    ∀ C d, alookup C s.resource_dependencies = some d → ∀ T2 ∈ d, T2 ∈ tags8 := by
  induction h with
  | init =>
    intro C d hd
    simp [initState, alookup] at hd
  | register hr ht hreg ih =>
    rename_i s1 s2 t x
    have hInv := reach_inv (reach8_reach hr)
    obtain ⟨s3, hrun, -, hloc, hpost, -, -, -, -⟩ :=
      register_spec t x hInv.core hInv.dla hInv.ld
    rw [hreg] at hrun
    cases hrun
    intro C d hd T2 hT2
    by_cases hC : C ∈ required_resources t
    · obtain ⟨-, -, h3⟩ := hpost C hC
      rw [h3] at hd
      cases hd
      rcases mem_set_add.mp hT2 with h4 | h4
      · exact h4 ▸ ht
      · cases hdl : alookup C s1.resource_dependencies with
        | none =>
          rw [hdl] at h4
          simp at h4
        | some d0 =>
          rw [hdl] at h4
          simp only [Option.getD_some] at h4
          exact ih C d0 hdl T2 h4
    · obtain ⟨-, -, e3⟩ := hloc C hC
      exact ih C d (e3 ▸ hd) T2 hT2
  | unregister x hr ht ih =>
    rename_i s1 t
    have hInv := reach_inv (reach8_reach hr)
    intro C d hd T2 hT2
    cases hli : alookup t s1.layer_instances with
    | none =>
      rw [unregister_absent hli] at hd
      exact ih C d hd T2 hT2
    | some l =>
      by_cases he : (l.erase x).isEmpty
      · obtain ⟨-, -, -, -, uMono, -, -⟩ := unregister_empties_spec hInv hli he
        obtain ⟨d0, hd0, hsub⟩ := uMono C d hd
        exact ih C d0 hd0 T2 (hsub hT2)
      · rw [unregister_stay hli he] at hd
        exact ih C d hd T2 hT2

theorem countP_aset_present {α : Type} {li : List (String × α)} {T : String} {l0 : α}
    (hli : alookup T li = some l0) (v : α) (p : String × α → Bool) :
    (aset T v li).countP p + (if p (T, l0) then 1 else 0) =
      li.countP p + (if p (T, v) then 1 else 0) := by
  induction li with
  | nil => simp [alookup] at hli
  | cons q rest ih =>
    obtain ⟨k, w⟩ := q
    by_cases hk : k = T
    · rw [alookup, if_pos hk] at hli
      injection hli with hinj
      subst hinj
      rw [hk]
      have ha : aset T v ((T, w) :: rest) = (T, v) :: rest := by
        simp [aset]
      rw [ha]
      simp only [List.countP_cons]
      omega
    · rw [alookup, if_neg hk] at hli
      have ha : aset T v ((k, w) :: rest) = (k, w) :: aset T v rest := by
        simp [aset, hk]
      rw [ha]
      simp only [List.countP_cons]
      have := ih hli
      omega

theorem countP_aset_absent {α : Type} {li : List (String × α)} {T : String}
    (hli : alookup T li = none) (v : α) (p : String × α → Bool) :
    (aset T v li).countP p = li.countP p + (if p (T, v) then 1 else 0) := by
  induction li with
  | nil => simp [aset, List.countP_cons]
  | cons q rest ih =>
    obtain ⟨k, w⟩ := q
    by_cases hk : k = T
    · rw [alookup, if_pos hk] at hli
      cases hli
    · rw [alookup, if_neg hk] at hli
      have ha : aset T v ((k, w) :: rest) = (k, w) :: aset T v rest := by
        simp [aset, hk]
      rw [ha]
      simp only [List.countP_cons]
      have := ih hli
      omega

theorem live_count_register_dead {s : RMState} {T : String} {x : Nat}
    (hdead : is_live s T = false) (C : String) :
    live_dependent_count
        { s with
          layer_instances :=
            aset T (set_add x ((alookup T s.layer_instances).getD []))
              s.layer_instances } C
      = live_dependent_count s C + (if C ∈ required_resources T then 1 else 0) := by
  simp only [live_dependent_count]
  have h3 : set_add x ([] : List Nat) = [x] := by
    simp [set_add]
  cases hli : alookup T s.layer_instances with
  | none =>
    simp only [Option.getD_none]
    rw [h3, countP_aset_absent hli]
    simp [decide_eq_true_eq]
  | some l =>
    have hl0 : l = [] := by
      rw [is_live, hli] at hdead
      cases hl : l with
      | nil => rfl
      | cons a as =>
        rw [hl] at hdead
        cases hdead
    subst hl0
    simp only [Option.getD_some]
    rw [h3]
    have h2 := countP_aset_present hli [x]
      (fun p => !p.2.isEmpty && decide (C ∈ required_resources p.1))
    simp only [List.isEmpty_nil, Bool.not_true, Bool.false_and, List.isEmpty_cons,
      Bool.not_false, Bool.true_and, decide_eq_true_eq, Bool.false_eq_true, if_false] at h2
    omega

theorem live_count_unregister_empties {s : RMState} {T : String} {x : Nat} {l : List Nat}
    (hli : alookup T s.layer_instances = some l) (hlne : l ≠ [])
    (he : l.erase x = []) (C : String) :
    live_dependent_count
        { s with layer_instances := aset T (l.erase x) s.layer_instances } C
        + (if C ∈ required_resources T then 1 else 0)
      = live_dependent_count s C := by
  simp only [live_dependent_count]
  have h2 := countP_aset_present hli (l.erase x)
    (fun p => !p.2.isEmpty && decide (C ∈ required_resources p.1))
  rw [he] at h2 ⊢
  have h4 : l.isEmpty = false := by
    cases l with
    | nil => exact absurd rfl hlne
    | cons a as => rfl
  simp only [List.isEmpty_nil, Bool.not_true, Bool.false_and, h4, Bool.not_false,
    Bool.true_and, decide_eq_true_eq, Bool.false_eq_true, if_false] at h2
  omega

theorem live_count_pos {s : RMState} {T' C : String}
    (hlv : is_live s T' = true) (hreq : C ∈ required_resources T') :
    0 < live_dependent_count s C := by
  rw [is_live] at hlv
  cases hli : alookup T' s.layer_instances with
  | none =>
    rw [hli] at hlv
    cases hlv
  | some l =>
    rw [hli] at hlv
    simp only [live_dependent_count]
    refine List.countP_pos_iff.mpr ⟨(T', l), alookup_mem hli, ?_⟩
    simp only [Bool.and_eq_true, decide_eq_true_eq]
    exact ⟨hlv, hreq⟩

theorem is_live_of_lookup {s : RMState} {T' : String} {l : List Nat}
    (hli : alookup T' s.layer_instances = some l) (hl : l ≠ []) :
    is_live s T' = true := by
  rw [is_live, hli]
  cases l with
  | nil => exact absurd rfl hl
  | cons a as => rfl

theorem eqinv_register {s : RMState} (T : String) (x : Nat)
    (hInv : Inv s) (hEq : EqInv s) (hdead : is_live s T = false) :
    ∃ s', register_layer T x s = some s' ∧ EqInv s' ∧ Inv s' ∧
      s'.layer_instances =
        aset T (set_add x ((alookup T s.layer_instances).getD []))
          s.layer_instances := by
  obtain ⟨s', hrun, hLI, hloc, hpost, hcore, hdla, hld, hliveT⟩ :=
    register_spec T x hInv.core hInv.dla hInv.ld
  refine ⟨s', hrun, ?_, ⟨hcore, hdla, hld⟩, hLI⟩
  have hcount : ∀ C, live_dependent_count s' C =
      live_dependent_count s C + (if C ∈ required_resources T then 1 else 0) := by
    intro C
    have h1 := live_count_register_dead (s := s) (T := T) (x := x) hdead C
    simp only [live_dependent_count] at h1 ⊢
    rw [hLI]
    exact h1
  have hlive_ne : ∀ T2, T2 ≠ T → is_live s' T2 = is_live s T2 := by
    intro T2 h2
    rw [is_live, is_live, hLI, alookup_aset_ne h2]
  constructor
  · intro C
    by_cases hC : C ∈ required_resources T
    · obtain ⟨-, h2, -⟩ := hpost C hC
      rw [h2, hcount C, if_pos hC]
      rw [if_neg (by omega : ¬(live_dependent_count s C + 1 = 0))]
      have hrc := hEq.rc C
      by_cases hzero : live_dependent_count s C = 0
      · rw [hzero] at hrc ⊢
        rw [if_pos rfl] at hrc
        rw [hrc]
        norm_num
      · rw [if_neg hzero] at hrc
        rw [hrc]
        simp only [Option.getD_some, Option.some.injEq]
        push_cast
        ring
    · obtain ⟨-, e2, -⟩ := hloc C hC
      rw [e2, hcount C, if_neg hC]
      simpa using hEq.rc C
  · intro C
    by_cases hC : C ∈ required_resources T
    · obtain ⟨h1, -, -⟩ := hpost C hC
      rw [hcount C, if_pos hC]
      simp only [h1, true_iff]
      omega
    · obtain ⟨e1, -, -⟩ := hloc C hC
      rw [e1, hcount C, if_neg hC]
      simpa using hEq.sr C
  · intro C hd'
    by_cases hC : C ∈ required_resources T
    · obtain ⟨-, -, h3⟩ := hpost C hC
      rw [h3] at hd'
      cases hd'
    · obtain ⟨-, -, e3⟩ := hloc C hC
      rw [e3] at hd'
      rw [hcount C, if_neg hC]
      simpa using hEq.rdNone C hd'
  · intro C d' hd'
    by_cases hC : C ∈ required_resources T
    · obtain ⟨-, -, h3⟩ := hpost C hC
      rw [h3] at hd'
      cases hd'
      refine ⟨by rw [hcount C, if_pos hC]; omega, ?_⟩
      intro T'
      rw [mem_set_add]
      constructor
      · rintro (rfl | hm)
        · exact ⟨hliveT, hC⟩
        · cases hrd : alookup C s.resource_dependencies with
          | none =>
            rw [hrd] at hm
            simp at hm
          | some d0 =>
            rw [hrd] at hm
            simp only [Option.getD_some] at hm
            obtain ⟨-, hmem⟩ := hEq.rdSome C d0 hrd
            obtain ⟨hlv, hreq⟩ := (hmem T').mp hm
            have hne : T' ≠ T := fun e => by
              rw [e] at hlv
              rw [hlv] at hdead
              cases hdead
            rw [← hlive_ne T' hne] at hlv
            exact ⟨hlv, hreq⟩
      · rintro ⟨hlv, hreq⟩
        by_cases he : T' = T
        · exact Or.inl he
        · refine Or.inr ?_
          rw [hlive_ne T' he] at hlv
          cases hrd : alookup C s.resource_dependencies with
          | none =>
            have hc0 := hEq.rdNone C hrd
            have := live_count_pos hlv hreq
            omega
          | some d0 =>
            simp only [Option.getD_some]
            obtain ⟨-, hmem⟩ := hEq.rdSome C d0 hrd
            exact (hmem T').mpr ⟨hlv, hreq⟩
    · obtain ⟨-, -, e3⟩ := hloc C hC
      rw [e3] at hd'
      obtain ⟨hc0, hmem⟩ := hEq.rdSome C d' hd'
      refine ⟨by rw [hcount C, if_neg hC]; omega, ?_⟩
      intro T'
      rw [hmem T']
      by_cases he : T' = T
      · subst he
        constructor
        · rintro ⟨hlv, -⟩
          rw [hlv] at hdead
          cases hdead
        · rintro ⟨-, hreq⟩
          exact absurd hreq hC
      · rw [hlive_ne T' he]

theorem eqinv_unregister {s : RMState} (T : String) (x : Nat)
    (hInv : Inv s) (hEq : EqInv s) : EqInv (unregister_layer T x s) := by
  cases hli : alookup T s.layer_instances with
  | none =>
    rw [unregister_absent hli]
    exact hEq
  | some l =>
    by_cases he : (l.erase x).isEmpty
    · by_cases hlne : l = []
      · subst hlne
        rw [unregister_empties hli he]
        have hmid : ({ s with
            layer_instances := aset T (([] : List Nat).erase x) s.layer_instances } :
              RMState) = s := by
          have h0 : (([] : List Nat).erase x) = [] := rfl
          rw [h0, aset_self hli]
        rw [hmid]
        unfold cleanup_unused_resources
        have hfilter : (s.resource_dependencies.filter fun p => T ∈ p.2) = [] := by
          refine List.filter_eq_nil_iff.mpr ?_
          rintro ⟨C, d⟩ hp
          simp only [decide_eq_true_eq]
          intro hT
          obtain ⟨-, hmem⟩ := hEq.rdSome C d (mem_alookup hInv.core.nkRD hp)
          obtain ⟨hlv, -⟩ := (hmem T).mp hT
          rw [is_live, hli] at hlv
          cases hlv
        rw [hfilter]
        exact hEq
      · have he' : l.erase x = [] := List.isEmpty_iff.mp he
        obtain ⟨uLI, uInv, uRout, uPop, uMono, uLoc, uExact⟩ :=
          unregister_empties_spec hInv hli he
        have hcnt : ∀ C, live_dependent_count (unregister_layer T x s) C +
            (if C ∈ required_resources T then 1 else 0) = live_dependent_count s C := by
          intro C
          have h1 := live_count_unregister_empties hli hlne he' C
          simp only [live_dependent_count] at h1 ⊢
          rw [uLI]
          exact h1
        have hTdead : is_live (unregister_layer T x s) T = false := by
          rw [is_live, uLI, alookup_aset_self, he']
          rfl
        have hlvne : ∀ T2, T2 ≠ T →
            is_live (unregister_layer T x s) T2 = is_live s T2 := by
          intro T2 h2
          rw [is_live, is_live, uLI, alookup_aset_ne h2]
        have hliveT : is_live s T = true := is_live_of_lookup hli hlne
        have hnotin : ∀ C,
            C ∉ (s.resource_dependencies.filter fun p => T ∈ p.2).map Prod.fst →
            C ∉ required_resources T := by
          intro C hC hreq
          cases hrd : alookup C s.resource_dependencies with
          | none =>
            have hc0 := hEq.rdNone C hrd
            have := live_count_pos hliveT hreq
            omega
          | some d =>
            obtain ⟨-, hmem⟩ := hEq.rdSome C d hrd
            exact hC (resources_to_check_cov C d hrd ((hmem T).mpr ⟨hliveT, hreq⟩))
        have hcval : ∀ C n, alookup C s.resource_ref_counts = some n →
            live_dependent_count s C ≠ 0 ∧ n = (live_dependent_count s C : Int) := by
          intro C n hn
          have hrc := hEq.rc C
          by_cases hz : live_dependent_count s C = 0
          · rw [if_pos hz] at hrc
            rw [hn] at hrc
            cases hrc
          · rw [if_neg hz] at hrc
            rw [hn] at hrc
            injection hrc with hinj
            exact ⟨hz, hinj⟩
        refine ⟨?_, ?_, ?_, ?_⟩
        · intro C
          by_cases hC : C ∈ (s.resource_dependencies.filter fun p => T ∈ p.2).map Prod.fst
          · obtain ⟨d, n, hd, hn, hTd, hcc⟩ := uExact C hC
            obtain ⟨hz, hnval⟩ := hcval C n hn
            obtain ⟨-, hmem⟩ := hEq.rdSome C d hd
            have hreq : C ∈ required_resources T := ((hmem T).mp hTd).2
            have hcu : live_dependent_count (unregister_layer T x s) C + 1 =
                live_dependent_count s C := by
              have h2 := hcnt C
              rw [if_pos hreq] at h2
              exact h2
            rcases hcc with ⟨hn1, -, -, g2, -⟩ | ⟨hn1, -, g2, -⟩
            · rw [g2]
              have hzz : live_dependent_count (unregister_layer T x s) C = 0 := by
                rw [hn1] at hnval
                omega
              simp [hzz]
            · rw [g2]
              have hne0 : live_dependent_count (unregister_layer T x s) C ≠ 0 := by
                omega
              rw [if_neg hne0]
              simp only [Option.some.injEq]
              omega
          · obtain ⟨-, e2, -⟩ := uLoc C hC
            rw [e2]
            have hcu : live_dependent_count (unregister_layer T x s) C =
                live_dependent_count s C := by
              have h2 := hcnt C
              rw [if_neg (hnotin C hC)] at h2
              omega
            rw [hcu]
            exact hEq.rc C
        · intro C
          by_cases hC : C ∈ (s.resource_dependencies.filter fun p => T ∈ p.2).map Prod.fst
          · obtain ⟨d, n, hd, hn, hTd, hcc⟩ := uExact C hC
            obtain ⟨hz, hnval⟩ := hcval C n hn
            obtain ⟨-, hmem⟩ := hEq.rdSome C d hd
            have hreq : C ∈ required_resources T := ((hmem T).mp hTd).2
            have hcu : live_dependent_count (unregister_layer T x s) C + 1 =
                live_dependent_count s C := by
              have h2 := hcnt C
              rw [if_pos hreq] at h2
              exact h2
            rcases hcc with ⟨hn1, -, g1, -, -⟩ | ⟨hn1, g1, -, -⟩
            · rw [g1]
              have hzz : live_dependent_count (unregister_layer T x s) C = 0 := by
                rw [hn1] at hnval
                omega
              simp [hzz]
            · rw [g1]
              constructor
              · intro _
                omega
              · intro _
                exact (hEq.sr C).mpr hz
          · obtain ⟨e1, -, -⟩ := uLoc C hC
            rw [e1]
            have hcu : live_dependent_count (unregister_layer T x s) C =
                live_dependent_count s C := by
              have h2 := hcnt C
              rw [if_neg (hnotin C hC)] at h2
              omega
            rw [hcu]
            exact hEq.sr C
        · intro C hd'
          by_cases hC : C ∈ (s.resource_dependencies.filter fun p => T ∈ p.2).map Prod.fst
          · obtain ⟨d, n, hd, hn, hTd, hcc⟩ := uExact C hC
            obtain ⟨hz, hnval⟩ := hcval C n hn
            obtain ⟨-, hmem⟩ := hEq.rdSome C d hd
            have hreq : C ∈ required_resources T := ((hmem T).mp hTd).2
            have hcu : live_dependent_count (unregister_layer T x s) C + 1 =
                live_dependent_count s C := by
              have h2 := hcnt C
              rw [if_pos hreq] at h2
              exact h2
            rcases hcc with ⟨hn1, -, -, -, g3⟩ | ⟨hn1, -, -, g3⟩
            · rw [hn1] at hnval
              omega
            · rw [g3] at hd'
              cases hd'
          · obtain ⟨-, -, e3⟩ := uLoc C hC
            rw [e3] at hd'
            have hc0 := hEq.rdNone C hd'
            have h2 := hcnt C
            rw [if_neg (hnotin C hC)] at h2
            omega
        · intro C d' hd'
          by_cases hC : C ∈ (s.resource_dependencies.filter fun p => T ∈ p.2).map Prod.fst
          · obtain ⟨d, n, hd, hn, hTd, hcc⟩ := uExact C hC
            obtain ⟨hz, hnval⟩ := hcval C n hn
            obtain ⟨-, hmem⟩ := hEq.rdSome C d hd
            have hreq : C ∈ required_resources T := ((hmem T).mp hTd).2
            have hcu : live_dependent_count (unregister_layer T x s) C + 1 =
                live_dependent_count s C := by
              have h2 := hcnt C
              rw [if_pos hreq] at h2
              exact h2
            rcases hcc with ⟨-, -, -, -, g3⟩ | ⟨hn1, -, -, g3⟩
            · rw [g3] at hd'
              cases hd'
            · rw [g3] at hd'
              cases hd'
              refine ⟨by omega, ?_⟩
              intro T'
              have hndd := hInv.core.ndDeps C d hd
              rw [hndd.mem_erase_iff]
              constructor
              · rintro ⟨hne, hmemd⟩
                obtain ⟨hlv, hreq'⟩ := (hmem T').mp hmemd
                rw [← hlvne T' hne] at hlv
                exact ⟨hlv, hreq'⟩
              · rintro ⟨hlv, hreq'⟩
                by_cases hne : T' = T
                · rw [hne] at hlv
                  rw [hlv] at hTdead
                  cases hTdead
                · rw [hlvne T' hne] at hlv
                  exact ⟨hne, (hmem T').mpr ⟨hlv, hreq'⟩⟩
          · obtain ⟨-, -, e3⟩ := uLoc C hC
            rw [e3] at hd'
            obtain ⟨hz, hmem⟩ := hEq.rdSome C d' hd'
            have hcu : live_dependent_count (unregister_layer T x s) C =
                live_dependent_count s C := by
              have h2 := hcnt C
              rw [if_neg (hnotin C hC)] at h2
              omega
            refine ⟨by omega, ?_⟩
            intro T'
            rw [hmem T']
            by_cases hne : T' = T
            · subst hne
              constructor
              · rintro ⟨-, hreq'⟩
                exact absurd (resources_to_check_cov C d' hd'
                  ((hmem _).mpr ⟨hliveT, hreq'⟩)) hC
              · rintro ⟨hlv, -⟩
                rw [hlv] at hTdead
                cases hTdead
            · rw [hlvne T' hne]
    · rw [unregister_stay hli he]
      have hlne : l ≠ [] := by
        intro h0
        rw [h0] at he
        exact he rfl
      have hlv : ∀ T2, is_live
          { s with layer_instances := aset T (l.erase x) s.layer_instances } T2 =
          is_live s T2 := by
        intro T2
        by_cases h3 : T2 = T
        · rw [h3, is_live, is_live, alookup_aset_self, hli]
          have h4 : (l.erase x).isEmpty = false := by
            cases hc : (l.erase x).isEmpty with
            | false => rfl
            | true => exact absurd hc he
          have h5 : l.isEmpty = false := by
            cases l with
            | nil => exact absurd rfl hlne
            | cons a as => rfl
          show (!(l.erase x).isEmpty) = !l.isEmpty
          rw [h4, h5]
        · rw [is_live, is_live, alookup_aset_ne h3]
      have hcnt : ∀ C, live_dependent_count
          { s with layer_instances := aset T (l.erase x) s.layer_instances } C =
          live_dependent_count s C := by
        intro C
        simp only [live_dependent_count]
        have h2 := countP_aset_present hli (l.erase x)
          (fun p => !p.2.isEmpty && decide (C ∈ required_resources p.1))
        have h4 : (l.erase x).isEmpty = false := by
          cases hc : (l.erase x).isEmpty with
          | false => rfl
          | true => exact absurd hc he
        have h5 : l.isEmpty = false := by
          cases l with
          | nil => exact absurd rfl hlne
          | cons a as => rfl
        simp only [h4, h5, Bool.not_false, Bool.true_and] at h2
        omega
      refine ⟨?_, ?_, ?_, ?_⟩
      · intro C
        rw [hcnt C]
        exact hEq.rc C
      · intro C
        rw [hcnt C]
        exact hEq.sr C
      · intro C hd'
        rw [hcnt C]
        exact hEq.rdNone C hd'
      · intro C d' hd'
        obtain ⟨hz, hmem⟩ := hEq.rdSome C d' hd'
        refine ⟨by rw [hcnt C]; exact hz, ?_⟩
        intro T'
        rw [hlv T']
        exact hmem T'

theorem eqinv_init : EqInv initState := by
  refine ⟨?_, ?_, ?_, ?_⟩ <;>
    simp [initState, alookup, live_dependent_count, is_live]

theorem register_phase (ts : List String) :
    ∀ s : RMState, ts.Nodup → Reach s → Inv s → EqInv s →
      (∀ T ∈ ts, is_live s T = false) →
      ∃ s', runOps (ts.map fun T => Op.register T 0) s = some s' ∧
        Reach s' ∧ Inv s' ∧ EqInv s' ∧
        (∀ T ∈ ts, alookup T s'.layer_instances = some [0]) ∧
        (∀ T, T ∉ ts → alookup T s'.layer_instances = alookup T s.layer_instances) := by
  induction ts with
  | nil =>
    intro s _ hR hI hE _
    exact ⟨s, rfl, hR, hI, hE, by simp, fun T _ => rfl⟩
  | cons T rest ih =>
    intro s hnd hR hI hE hdead
    obtain ⟨s1, hrun1, hE1, hI1, hLI1⟩ :=
      eqinv_register T 0 hI hE (hdead T (List.mem_cons_self T rest))
    have hR1 : Reach s1 := Reach.register hR hrun1
    have hcur : (alookup T s.layer_instances).getD [] = [] := by
      have hd2 := hdead T (List.mem_cons_self T rest)
      rw [is_live] at hd2
      cases hl : alookup T s.layer_instances with
      | none => rfl
      | some l2 =>
        rw [hl] at hd2
        cases l2 with
        | nil => rfl
        | cons a as => cases hd2
    have hlkT : alookup T s1.layer_instances = some [0] := by
      rw [hLI1, alookup_aset_self, hcur]
      rfl
    have hlkne : ∀ T2, T2 ≠ T →
        alookup T2 s1.layer_instances = alookup T2 s.layer_instances := by
      intro T2 h2
      rw [hLI1, alookup_aset_ne h2]
    have hdead1 : ∀ T2 ∈ rest, is_live s1 T2 = false := by
      intro T2 h2
      have hne : T2 ≠ T := fun e => (List.nodup_cons.mp hnd).1 (e ▸ h2)
      have h3 := hdead T2 (List.mem_cons_of_mem T h2)
      rw [is_live] at h3 ⊢
      rw [hlkne T2 hne]
      exact h3
    obtain ⟨s', hrun', hR', hI', hE', hmem', hloc'⟩ :=
      ih s1 (List.nodup_cons.mp hnd).2 hR1 hI1 hE1 hdead1
    refine ⟨s', ?_, hR', hI', hE', ?_, ?_⟩
    · rw [List.map_cons, runOps, List.foldlM_cons]
      rw [show stepOp (Op.register T 0) s = some s1 from hrun1]
      simpa [runOps] using hrun'
    · intro T2 h2
      rcases List.mem_cons.mp h2 with h3 | h3
      · subst h3
        rw [hloc' T2 (List.nodup_cons.mp hnd).1]
        exact hlkT
      · exact hmem' T2 h3
    · intro T2 h2
      have hne : T2 ≠ T := fun e => h2 (e ▸ List.mem_cons_self T rest)
      have h3 : T2 ∉ rest := fun e => h2 (List.mem_cons_of_mem T e)
      rw [hloc' T2 h3, hlkne T2 hne]

theorem unregister_phase (ts : List String) :
    ∀ s : RMState, ts.Nodup → Inv s → EqInv s →
      (∀ T ∈ ts, alookup T s.layer_instances = some [0]) →
      (∀ T, is_live s T = true → T ∈ ts) →
      ∃ s', runOps (ts.map fun T => Op.unregister T 0) s = some s' ∧
        Inv s' ∧ EqInv s' ∧ (∀ T, is_live s' T = false) := by
  induction ts with
  | nil =>
    intro s _ hI hE _ hlive
    refine ⟨s, rfl, hI, hE, ?_⟩
    intro T
    cases hc : is_live s T with
    | false => rfl
    | true => exact absurd (hlive T hc) (List.not_mem_nil T)
  | cons T rest ih =>
    intro s hnd hI hE hmem hlive
    have hliT := hmem T (List.mem_cons_self T rest)
    have hE1 := eqinv_unregister T 0 hI hE
    have hI1 := unregister_spec T 0 hI
    have hisE : (([0] : List Nat).erase 0).isEmpty = true := rfl
    obtain ⟨uLI, -, -, -, -, -, -⟩ := unregister_empties_spec hI hliT hisE
    have hlkT : alookup T (unregister_layer T 0 s).layer_instances = some [] := by
      rw [uLI, alookup_aset_self]
      rfl
    have hlkne : ∀ T2, T2 ≠ T →
        alookup T2 (unregister_layer T 0 s).layer_instances =
          alookup T2 s.layer_instances := by
      intro T2 h2
      rw [uLI, alookup_aset_ne h2]
    have hmem1 : ∀ T2 ∈ rest,
        alookup T2 (unregister_layer T 0 s).layer_instances = some [0] := by
      intro T2 h2
      have hne : T2 ≠ T := fun e => (List.nodup_cons.mp hnd).1 (e ▸ h2)
      rw [hlkne T2 hne]
      exact hmem T2 (List.mem_cons_of_mem T h2)
    have hlive1 : ∀ T2, is_live (unregister_layer T 0 s) T2 = true → T2 ∈ rest := by
      intro T2 h2
      by_cases hne : T2 = T
      · subst hne
        rw [is_live, hlkT] at h2
        cases h2
      · rw [is_live, hlkne T2 hne] at h2
        have h3 := hlive T2 (by rw [is_live]; exact h2)
        rcases List.mem_cons.mp h3 with h4 | h4
        · exact absurd h4 hne
        · exact h4
    obtain ⟨s', hrun', hI', hE', hdead'⟩ :=
      ih (unregister_layer T 0 s) (List.nodup_cons.mp hnd).2 hI1 hE1 hmem1 hlive1
    refine ⟨s', ?_, hI', hE', hdead'⟩
    rw [List.map_cons, runOps, List.foldlM_cons]
    rw [show stepOp (Op.unregister T 0) s = some (unregister_layer T 0 s) from rfl]
    simpa [runOps] using hrun'

/-- C7 counterexample: after registering one consumer for each of the seven
known tags and unregistering all seven, the run succeeds but the final state
is NOT equal to the freshly-initialized state (the live-set map retains the
seven tag keys bound to empty sets), refuting the claim as stated. -/
theorem C7_final_state_not_fresh_counterexample :
    (runOps ((knownTags.map fun T => Op.register T 0) ++
        (knownTags.map fun T => Op.unregister T 0)) initState).isSome = true ∧
    runOps ((knownTags.map fun T => Op.register T 0) ++
        (knownTags.map fun T => Op.unregister T 0)) initState ≠ some initState := by
  refine ⟨by decide, by decide⟩

/-- C7 (amended): registering one consumer under each of the seven known tags
and then unregistering all seven in ANY order empties the resource catalog,
the ref-count map and the dependents map, and leaves every live set empty;
only the live-set map's (empty-valued) tag keys distinguish the final state
from the freshly-initialized one. -/
theorem C7_all_tags_cycle_empties_resources (l : List String)
    (hperm : l.Perm knownTags) :
    ∃ s', runOps ((knownTags.map fun T => Op.register T 0) ++
        (l.map fun T => Op.unregister T 0)) initState = some s' ∧
      s'.shared_resources = [] ∧ s'.resource_ref_counts = [] ∧
      s'.resource_dependencies = [] ∧
      (∀ T lv, alookup T s'.layer_instances = some lv → lv = []) := by
  obtain ⟨s0, hrun0, hR0, hI0, hE0, hmem0, hloc0⟩ :=
    register_phase knownTags initState (by decide) Reach.init inv_init eqinv_init
      (fun T _ => by rw [is_live]; rfl)
  have hndl : l.Nodup := hperm.symm.nodup (by decide)
  obtain ⟨s', hrun', hI', hE', hdead'⟩ :=
    unregister_phase l s0 hndl hI0 hE0
      (fun T hT => hmem0 T (hperm.mem_iff.mp hT))
      (fun T hT => by
        by_cases hk : T ∈ knownTags
        · exact hperm.mem_iff.mpr hk
        · rw [is_live, hloc0 T hk] at hT
          cases hT)
  have hrun : runOps ((knownTags.map fun T => Op.register T 0) ++
      (l.map fun T => Op.unregister T 0)) initState = some s' := by
    rw [runOps, List.foldlM_append]
    rw [show List.foldlM (fun s op => stepOp op s) initState
        (knownTags.map fun T => Op.register T 0) = some s0 from hrun0]
    simpa [runOps] using hrun'
  have hcnt0 : ∀ C, live_dependent_count s' C = 0 := by
    intro C
    simp only [live_dependent_count]
    refine List.countP_eq_zero.mpr ?_
    rintro ⟨T2, lv⟩ hmem2
    have hlk := mem_alookup hI'.core.nkLI hmem2
    cases lv with
    | nil => simp
    | cons a as =>
      exfalso
      have h2 : is_live s' T2 = true := is_live_of_lookup hlk (by simp)
      have h3 := hdead' T2
      rw [h2] at h3
      cases h3
  refine ⟨s', hrun, ?_, ?_, ?_, ?_⟩
  · refine alookup_none_nil ?_
    intro C
    have h2 := hE'.sr C
    rw [hcnt0 C] at h2
    cases hc : alookup C s'.shared_resources with
    | none => rfl
    | some h0 =>
      exfalso
      have h3 : (alookup C s'.shared_resources).isSome = true := by
        rw [hc]
        rfl
      exact (h2.mp h3) rfl
  · refine alookup_none_nil ?_
    intro C
    have h2 := hE'.rc C
    rw [hcnt0 C, if_pos rfl] at h2
    exact h2
  · refine alookup_none_nil ?_
    intro C
    cases hc : alookup C s'.resource_dependencies with
    | none => rfl
    | some d =>
      exfalso
      have h2 := (hE'.rdSome C d hc).1
      rw [hcnt0 C] at h2
      exact h2 rfl
  · intro T lv hlk
    cases lv with
    | nil => rfl
    | cons a as =>
      exfalso
      have h2 : is_live s' T = true := is_live_of_lookup hlk (by simp)
      have h3 := hdead' T
      rw [h2] at h3
      cases h3

/-- Witness for C7 (amended) at the identity unregistration order. -/
theorem C7_all_tags_cycle_empties_resources_witness :
    ∃ s', runOps ((knownTags.map fun T => Op.register T 0) ++
        (knownTags.map fun T => Op.unregister T 0)) initState = some s' ∧
      s'.shared_resources = [] ∧ s'.resource_ref_counts = [] ∧
      s'.resource_dependencies = [] ∧
      (∀ T lv, alookup T s'.layer_instances = some lv → lv = []) :=
  C7_all_tags_cycle_empties_resources knownTags (List.Perm.refl knownTags)

/-- C1 (the code violates the spec's invariant): after two distinct points
consumers register, the recorded ref count of `vertex_buffers` is 2, but only
one tag (`points`) has a non-empty live set and depends on it, so
`ref_count(C) = |{tag : C ∈ deps(tag) ∧ LiveSet(tag) ≠ ∅}|` fails at a
quiescent point: `register_layer` increments ref counts once per call, not
once per tag. -/
theorem C1_refcount_counts_calls_not_tags :
    (runOps [.register "points" 1, .register "points" 2] initState).map
        (fun s => (alookup "vertex_buffers" s.resource_ref_counts,
          live_dependent_count s "vertex_buffers")) = some (some 2, 1) := by
  decide

/-- C2 (the code violates the claim): registering the same consumer twice under
`points` leaves the live set with a single entry (not double-counted), but
every ref count ends at 2 instead of the single-registration value 1, because
`register_layer` unconditionally re-runs `_ensure_layer_resources`. -/
theorem C2_duplicate_register_double_counts :
    (runOps [.register "points" 1, .register "points" 1] initState).map
        (fun s => (alookup "points" s.layer_instances,
          alookup "vertex_buffers" s.resource_ref_counts)) = some (some [1], some 2) ∧
    (runOps [.register "points" 1] initState).map
        (fun s => alookup "vertex_buffers" s.resource_ref_counts) = some (some 1) := by
  decide

/-- C3 (the code violates the claim): register two points consumers, then
unregister both; no tag has a live consumer any more, yet `marker_shaders`
still appears in the `get_resource_status` catalog with ref count 1, because
cleanup decrements once per tag death while registration incremented once per
call. -/
theorem C3_category_leaks_after_last_consumer :
    (runOps [.register "points" 1, .register "points" 2,
        .unregister "points" 1, .unregister "points" 2] initState).map
        (fun s => ((get_resource_status s).shared_resources.contains "marker_shaders",
          alookup "marker_shaders" (get_resource_status s).resource_ref_counts,
          get_active_layer_types s)) = some (true, some 1, []) := by
  decide

/-- C6: the concrete three-stage scenario: one points consumer gives
`transform_matrices`, `vertex_buffers`, `marker_shaders` ref count 1 each;
adding one shapes consumer gives `vertex_buffers` 2, `geometry_shaders` 1,
`marker_shaders` still 1; unregistering the points consumer destroys
`marker_shaders` (entry, ref count and dependents gone) while
`vertex_buffers` and `transform_matrices` drop to 1 and stay catalogued. -/
theorem C6_concrete_scenario :
    (runOps [.register "points" 1] initState).map
        (fun s => (alookup "transform_matrices" s.resource_ref_counts,
          alookup "vertex_buffers" s.resource_ref_counts,
          alookup "marker_shaders" s.resource_ref_counts))
      = some (some 1, some 1, some 1) ∧
    (runOps [.register "points" 1, .register "shapes" 2] initState).map
        (fun s => (alookup "vertex_buffers" s.resource_ref_counts,
          alookup "geometry_shaders" s.resource_ref_counts,
          alookup "marker_shaders" s.resource_ref_counts))
      = some (some 2, some 1, some 1) ∧
    (runOps [.register "points" 1, .register "shapes" 2,
        .unregister "points" 1] initState).map
        (fun s => (alookup "marker_shaders" s.shared_resources,
          alookup "marker_shaders" s.resource_ref_counts,
          alookup "marker_shaders" s.resource_dependencies))
      = some (none, none, none) ∧
    (runOps [.register "points" 1, .register "shapes" 2,
        .unregister "points" 1] initState).map
        (fun s => (alookup "vertex_buffers" s.resource_ref_counts,
          (alookup "vertex_buffers" s.shared_resources).isSome,
          alookup "transform_matrices" s.resource_ref_counts,
          (alookup "transform_matrices" s.shared_resources).isSome))
      = some (some 1, true, some 1, true) := by
  refine ⟨by decide, by decide, by decide, by decide⟩

/-- C5: on every manager state reachable using only the closed eight-tag set,
the `still_needed` test of `_cleanup_unused_resources` evaluates to false for
every catalogued resource category, and the cleanup routine coincides with the
simplified routine that destroys a category exactly when its decremented ref
count is `≤ 0`. -/
theorem C5_cleanup_equals_simple {s : RMState} (hs : Reach8 s) :
    (∀ C, (alookup C s.resource_dependencies).isSome → still_needed C s = false) ∧
    (∀ R, cleanup_unused_resources R s = cleanup_simple R s) := by
  have hInv := reach_inv (reach8_reach hs)
  have hbound := reach8_tags_bound hs
  constructor
  · intro C hC
    obtain ⟨d, hd⟩ := Option.isSome_iff_exists.mp hC
    rw [still_needed_char hd]
    have hCn : C ∈ resourceNames := hInv.core.keysBound C hC
    have hnm : C ∉ d := fun hm => names_tags_disjoint C hCn (hbound C d hd C hm)
    rw [contains_eq_false_of_not_mem hnm, Bool.and_false]
  · intro R
    have htodo : ∀ C ∈ (s.resource_dependencies.filter fun p => R ∈ p.2).map Prod.fst,
        C ∈ resourceNames := by
      intro C hC
      obtain ⟨d, hd, -⟩ := resources_to_check_mem hInv.core.nkRD C hC
      exact hInv.core.keysBound C (by rw [hd]; rfl)
    exact cleanup_fold_eq_simple R _ s htodo hbound hInv.core.nkRD

/-- Witness for C5 at a concrete reachable eight-tag state. -/
theorem C5_cleanup_equals_simple_witness :
    (∀ C, (alookup C
        ((register_layer "points" 1 initState).getD initState).resource_dependencies).isSome →
      still_needed C ((register_layer "points" 1 initState).getD initState) = false) ∧
    (∀ R, cleanup_unused_resources R ((register_layer "points" 1 initState).getD initState) =
      cleanup_simple R ((register_layer "points" 1 initState).getD initState)) :=
  C5_cleanup_equals_simple
    (Reach8.register (t := "points") (x := 1) Reach8.init (by decide) (by decide))

/-- C8: from any reachable manager state, `register_layer(tag, consumer)` raises
no error for every tag (known or not) and consumer, and afterwards every
resource category in the tag's dependency set exists in the catalog with ref
count at least 1 and the tag recorded among its dependents; an unrecognized tag
depends exactly on `transform_matrices`. -/
theorem C8_register_total_ensures_resources {s : RMState} (hs : Reach s)
    (T : String) (x : Nat) :
    ∃ s', register_layer T x s = some s' ∧
      (∀ C ∈ required_resources T,
        (alookup C s'.shared_resources).isSome ∧
        (∃ n, alookup C s'.resource_ref_counts = some n ∧ 1 ≤ n) ∧
        (∃ d, alookup C s'.resource_dependencies = some d ∧ T ∈ d)) ∧
      (T ∉ knownTags → required_resources T = ["transform_matrices"]) := by
  have hInv := reach_inv hs
  obtain ⟨s', hrun, hLI, hloc, hpost, hcore, hdla, hld, hlive⟩ :=
    register_spec T x hInv.core hInv.dla hInv.ld
  refine ⟨s', hrun, ?_, required_resources_default⟩
  intro C hC
  obtain ⟨h1, h2, h3⟩ := hpost C hC
  refine ⟨h1, ⟨_, h2, ?_⟩, ⟨_, h3, mem_set_add.mpr (Or.inl rfl)⟩⟩
  cases ho : alookup C s.resource_ref_counts with
  | none => simp
  | some m =>
    have := hInv.core.refPos C m ho
    simp only [Option.getD_some]
    omega

/-- Witness for C8 at a concrete reachable state and an unknown tag. -/
theorem C8_register_total_ensures_resources_witness :
    ∃ s', register_layer "mytag" 5 initState = some s' ∧
      (∀ C ∈ required_resources "mytag",
        (alookup C s'.shared_resources).isSome ∧
        (∃ n, alookup C s'.resource_ref_counts = some n ∧ 1 ≤ n) ∧
        (∃ d, alookup C s'.resource_dependencies = some d ∧ "mytag" ∈ d)) ∧
      ("mytag" ∉ knownTags → required_resources "mytag" = ["transform_matrices"]) :=
  C8_register_total_ensures_resources Reach.init "mytag" 5

/-- C9: from any reachable manager state, unregistering a consumer that is not
in the tag's live set (never registered, or already unregistered) raises no
error and leaves the state completely unchanged. -/
theorem C9_unregister_foreign_noop {s : RMState} (hs : Reach s) (T : String) (x : Nat)
    (hx : ∀ l, alookup T s.layer_instances = some l → x ∉ l) :
    unregister_layer T x s = s := by
  have hInv := reach_inv hs
  cases hli : alookup T s.layer_instances with
  | none => exact unregister_absent hli
  | some l =>
    have hxl : x ∉ l := hx l hli
    have her : l.erase x = l := List.erase_of_not_mem hxl
    by_cases he : (l.erase x).isEmpty
    · rw [unregister_empties hli he]
      have hl0 : l = [] := by
        rw [her] at he
        exact List.isEmpty_iff.mp he
      have haset : aset T (l.erase x) s.layer_instances = s.layer_instances := by
        rw [her]
        exact aset_self hli
      have hsmid :
          ({ s with layer_instances := aset T (l.erase x) s.layer_instances } : RMState)
            = s := by
        rw [haset]
      rw [hsmid]
      unfold cleanup_unused_resources
      have hfilter : (s.resource_dependencies.filter fun p => T ∈ p.2) = [] := by
        refine List.filter_eq_nil_iff.mpr ?_
        rintro ⟨C, d⟩ hp
        simp only [decide_eq_true_eq]
        intro hT
        have hlv : is_live s T = true :=
          hInv.dla C d T (mem_alookup hInv.core.nkRD hp) hT
        rw [is_live, hli, hl0] at hlv
        cases hlv
      rw [hfilter]
      rfl
    · rw [unregister_stay hli he, her, aset_self hli]

/-- Witness for C9: a never-registered consumer at a concrete reachable state. -/
theorem C9_unregister_foreign_noop_witness :
    unregister_layer "points" 7 initState = initState :=
  C9_unregister_foreign_noop Reach.init "points" 7
    (fun l hl => by simp [initState, alookup] at hl)

/-- C4: along runs over the closed eight-tag set, a resource category is
removed from the catalog by an unregister call only when its recorded ref
count was exactly 1 (so the decremented count reached zero), the triggering
tag was its only recorded dependent, and afterwards no tag with a non-empty
live set has the category in its static dependency set. -/
theorem C4_removal_only_when_unneeded {s : RMState} (hs : Reach8 s)
    (R : String) (x : Nat) (C : String)
    (hpre : (alookup C s.shared_resources).isSome)
    (hpost : alookup C (unregister_layer R x s).shared_resources = none) :
    alookup C s.resource_ref_counts = some 1 ∧
    (∀ d, alookup C s.resource_dependencies = some d → d = [R]) ∧
    (∀ T, is_live (unregister_layer R x s) T = true → C ∉ required_resources T) := by
  have hInv := reach_inv (reach8_reach hs)
  obtain ⟨h0, hsome⟩ := Option.isSome_iff_exists.mp hpre
  cases hli : alookup R s.layer_instances with
  | none =>
    rw [unregister_absent hli] at hpost
    rw [hpost] at hsome
    cases hsome
  | some l =>
    by_cases he : (l.erase x).isEmpty
    · obtain ⟨uLI, uInv, uRout, uPop, uMono⟩ := unregister_empties_spec hInv hli he
      obtain ⟨hrc1, hrd1⟩ := uPop C h0 hpost hsome
      refine ⟨hrc1, ?_, ?_⟩
      · intro d hd
        rw [hrd1] at hd
        cases hd
        rfl
      · intro T hT hCreq
        have hTR : T ≠ R := by
          intro heq
          subst heq
          rw [is_live, uLI, alookup_aset_self] at hT
          rw [List.isEmpty_iff] at he
          rw [he] at hT
          cases hT
        have hTs : is_live s T = true := by
          rw [is_live, uLI, alookup_aset_ne hTR] at hT
          exact hT
        obtain ⟨d, hd, hm⟩ := hInv.ld T hTs C hCreq
        rw [hrd1] at hd
        cases hd
        simp at hm
        exact hTR hm
    · rw [unregister_stay hli he] at hpost
      have hpost2 : alookup C s.shared_resources = none := hpost
      rw [hpost2] at hsome
      cases hsome

/-- Witness for C4: unregistering the only points consumer removes
`marker_shaders`. -/
theorem C4_removal_only_when_unneeded_witness :
    (alookup "marker_shaders"
        ((register_layer "points" 1 initState).getD initState).resource_ref_counts
      = some 1) ∧
    (∀ d, alookup "marker_shaders"
        ((register_layer "points" 1 initState).getD initState).resource_dependencies
        = some d → d = ["points"]) ∧
    (∀ T, is_live (unregister_layer "points" 1
        ((register_layer "points" 1 initState).getD initState)) T = true →
      "marker_shaders" ∉ required_resources T) := by
  have hreach : Reach8 ((register_layer "points" 1 initState).getD initState) :=
    Reach8.register (t := "points") (x := 1) Reach8.init (by decide) (by decide)
  exact C4_removal_only_when_unneeded hreach "points" 1 "marker_shaders"
    (by decide) (by decide)

end SRM
